import Mathlib

/-!
Verification development for the constago model-building engine.

The Go source is shallowly embedded: strings are Lean `String`s (lists of
characters, faithful for the ASCII inputs the theorems use, since Go byte
indexing and Lean character indexing agree on ASCII), pure functions become
Lean functions, and the two places whose observable behavior depends on the
iteration order of a Go map (`AddStruct`'s recursive alias-collision walk)
become inductive relations quantified over every iteration order.  External
collaborators (the `go list` subprocess, filesystem reads, `doublestar.Glob`,
the Go parser) are inputs/oracles, as the spec treats them.
-/

set_option maxHeartbeats 1000000

namespace Constago

/-! ### Character tables

Models of the character-level stdlib collaborators used by the source
(`unicode.IsUpper`, `strings.ToLower`, `strings.ToUpper`, and
`cases.Title(language.Und, cases.NoLower)` applied to a lowercased single
segment), restricted to ASCII, on which they agree with these tables. -/

def upperLowerTable : List (Char × Char) :=
  [('A','a'),('B','b'),('C','c'),('D','d'),('E','e'),('F','f'),('G','g'),
   ('H','h'),('I','i'),('J','j'),('K','k'),('L','l'),('M','m'),('N','n'),
   ('O','o'),('P','p'),('Q','q'),('R','r'),('S','s'),('T','t'),('U','u'),
   ('V','v'),('W','w'),('X','x'),('Y','y'),('Z','z')]

def lowerOfUpper (c : Char) : Option Char :=
  (upperLowerTable.find? (fun p => p.1 == c)).map (fun p => p.2)

def upperOfLower (c : Char) : Option Char :=
  (upperLowerTable.find? (fun p => p.2 == c)).map (fun p => p.1)

/-- Model of `unicode.IsUpper` on ASCII. -/
def goIsUpper (c : Char) : Bool := (lowerOfUpper c).isSome

/-- Model of `unicode.IsLower` on ASCII. -/
def goIsLower (c : Char) : Bool := (upperOfLower c).isSome

/-- Model of `strings.ToLower` on a single ASCII character. -/
def asciiToLower (c : Char) : Char := (lowerOfUpper c).getD c

/-- Model of `strings.ToUpper` on a single ASCII character. -/
def asciiToUpper (c : Char) : Char := (upperOfLower c).getD c

/-- Source `isSeparator`: word separators recognized by `splitIntoWords`. -/
def isSeparator (r : Char) : Bool :=
  r == '_' || r == '-' || r == ' ' || r == '.' || r == '/'

/-- Loop of source `splitIntoWords`: walk the characters keeping the current
word and whether the previous character was uppercase (the source reads
`s[i-1]`, only ever when the current word is nonempty, hence when a previous
character exists; the flag starts `false` and is never consulted before the
first character). -/
def splitGo : List Char → Bool → List Char → List (List Char)
  | [], _, cur => if cur.isEmpty then [] else [cur]
  | r :: rest, prevUp, cur =>
    if isSeparator r then
      (if cur.isEmpty then [] else [cur]) ++ splitGo rest (goIsUpper r) []
    else if goIsUpper r then
      if !cur.isEmpty && !prevUp then
        cur :: splitGo rest (goIsUpper r) [r]
      else
        splitGo rest (goIsUpper r) (cur ++ [r])
    else
      splitGo rest (goIsUpper r) (cur ++ [r])

/-- Source `splitIntoWords`, character-list level. -/
def splitIntoWordsL (s : List Char) : List (List Char) := splitGo s false []

/-- Source `splitIntoWords`. -/
def splitIntoWords (s : String) : List String :=
  (splitIntoWordsL s.data).map String.mk

/-- Model of `cases.Title(language.Und, cases.NoLower).String` on a single
ASCII segment with no internal word boundary: upcase the first character. -/
def titleNoLower : List Char → List Char
  | [] => []
  | c :: cs => asciiToUpper c :: cs

/-- The per-word step of `arrayToPascalCase`/`arrayToCamelCase`:
`cases.Title(language.Und, cases.NoLower).String(strings.ToLower(word))`. -/
def titleWord (w : List Char) : List Char := titleNoLower (w.map asciiToLower)

/-- Source `arrayToPascalCase`, character-list level: concatenate the
title-cased lowering of every nonempty word. -/
def arrayToPascalCaseL (ws : List (List Char)) : List Char :=
  List.flatten ((ws.filter (fun w => !w.isEmpty)).map titleWord)

/-- Source `arrayToCamelCase`, character-list level: lower the first word
entirely, then append the title-cased lowering of the remaining nonempty
words. -/
def arrayToCamelCaseL : List (List Char) → List Char
  | [] => []
  | w :: rest =>
    (w.map asciiToLower) ++ List.flatten ((rest.filter (fun w => !w.isEmpty)).map titleWord)

/-- Source `toPascalCase`, character-list level. -/
def toPascalCaseL (s : List Char) : List Char :=
  if s.isEmpty then s else arrayToPascalCaseL (splitGo s false [])

/-- Source `toCamelCase`, character-list level. -/
def toCamelCaseL (s : List Char) : List Char :=
  if s.isEmpty then s else arrayToCamelCaseL (splitGo s false [])

/-- Source `toPascalCase`. -/
def toPascalCase (s : String) : String := String.mk (toPascalCaseL s.data)

/-- Source `toCamelCase`. -/
def toCamelCase (s : String) : String := String.mk (toCamelCaseL s.data)

/-- Model of `strings.Join` on character lists. -/
def goJoin (ws : List (List Char)) (sep : List Char) : List Char :=
  List.intercalate sep ws

/-- Source `TransformCaseType` (the string constants `asIs`, `camel`,
`pascal`, `upper`, `lower`); `invalid` stands for any other string value of
the underlying string type. -/
inductive TransformCaseType where
  | asIs | camel | pascal | upper | lower | invalid
  deriving DecidableEq, Repr

/-- Source `transformFieldValue`, character-list level: normalize to
space-separated words when both a separator and a case change are requested,
apply the case, then rejoin on the separator. -/
def transformFieldValueL (value : List Char) (caseType : TransformCaseType)
    (sep : List Char) : List Char :=
  let value :=
    if !sep.isEmpty && caseType ≠ .asIs then
      goJoin (splitGo value false []) [' ']
    else value
  let value :=
    match caseType with
    | .asIs => value
    | .camel => toCamelCaseL value
    | .pascal => toPascalCaseL value
    | .upper => value.map asciiToUpper
    | .lower => value.map asciiToLower
    | .invalid => value
  if !sep.isEmpty then goJoin (splitGo value false []) sep else value

/-- Source `transformFieldValue`. -/
def transformFieldValue (value : String) (caseType : TransformCaseType)
    (sep : String) : String :=
  String.mk (transformFieldValueL value.data caseType sep.data)

/-- Source `ConstantFormatType` (`camel`, `pascal`, `snake`, `snakeUpper`);
`invalid` stands for any other string value. -/
inductive ConstantFormatType where
  | camel | pascal | snake | snakeUpper | invalid
  deriving DecidableEq, Repr

/-- Source `buildName`: join the nonempty parts with spaces, then apply the
format (the `default` switch arm, hit by `invalid`, pascal-cases). -/
def buildName (pre mid mid2 suf : String) (fmtType : ConstantFormatType) : String :=
  let parts := ([pre, mid, mid2, suf].filter (fun p => p ≠ ""))
  let base := String.intercalate " " parts
  match fmtType with
  | .camel => toCamelCase base
  | .pascal => toPascalCase base
  | .snake => String.mk ((goJoin (splitIntoWordsL base.data) ['_']).map asciiToLower)
  | .snakeUpper => String.mk ((goJoin (splitIntoWordsL base.data) ['_']).map asciiToUpper)
  | .invalid => toPascalCase base

/-! ### Struct-tag parsing

Models of the stdlib collaborators `reflect.StructTag.Lookup`/`Get` and the
source helpers built on them. -/

/-- Scan of the quoted value in `reflect.StructTag.Lookup`: after the opening
quote, advance to the closing quote, stepping over the character after each
backslash; yields the interior and the remaining tag text, or `none` when the
closing quote is missing. -/
def scanQuoted : Nat → List Char → List Char → Option (List Char × List Char)
  | 0, _, _ => none
  | _ + 1, [], _ => none
  | _ + 1, '"' :: rest, acc => some (acc, rest)
  | f + 1, '\\' :: c :: rest, acc => scanQuoted f rest (acc ++ ['\\', c])
  | f + 1, c :: rest, acc => scanQuoted f rest (acc ++ [c])

/-- Model of `strconv.Unquote` on a double-quoted interior without escapes
(the only shapes the theorems exercise); other interiors are treated as an
`Unquote` error, which makes the lookup stop as the source does. -/
def unquoteSimple (content : List Char) : Option String :=
  if content.contains '\\' || content.contains '"' then none
  else some (String.mk content)

/-- Model of `reflect.StructTag.Lookup`: skip spaces, read a key up to the
colon, require a double-quoted value, and either unquote it (on the requested
key) or continue with the rest of the tag. -/
def structTagLookupGo : Nat → List Char → String → Option String
  | 0, _, _ => none
  | f + 1, tag, key =>
    let tag := tag.dropWhile (fun c => c == ' ')
    if tag.isEmpty then none
    else
      let name := tag.takeWhile (fun c => c.val > 32 && c != ':' && c != '"' && c.val != 127)
      let rest := tag.drop name.length
      if name.isEmpty then none
      else
        match rest with
        | ':' :: '"' :: valRest =>
          match scanQuoted (valRest.length + 1) valRest [] with
          | none => none
          | some (content, rest') =>
            if key = String.mk name then unquoteSimple content
            else structTagLookupGo f rest' key
        | _ => none

/-- Model of `reflect.StructTag.Get`: the looked-up value, or `""`. -/
def structTagGet (tag : String) (key : String) : String :=
  (structTagLookupGo (tag.data.length + 1) tag.data key).getD ""

/-- Source `parseStructTags` (a cast to `reflect.StructTag`). -/
def parseStructTags (tagString : String) : String := tagString

/-- Model of `unicode.IsSpace` on ASCII, as used by `strings.TrimSpace`. -/
def goIsSpace (c : Char) : Bool :=
  c == ' ' || c == '\t' || c == '\n' || c == '\x0B' || c == '\x0C' || c == '\r'

/-- Model of `strings.TrimSpace`. -/
def trimSpace (s : String) : String :=
  String.mk (((s.data.dropWhile goIsSpace).reverse.dropWhile goIsSpace).reverse)

/-- Source `lookupTag`: the raw `Get` value, present only when not blank. -/
def lookupTag (tags : String) (key : String) : String × Bool :=
  let v := structTagGet tags key
  if trimSpace v = "" then ("", false) else (v, true)

/-- Model of `strings.HasPrefix`. -/
def goHasPrefixStr (s pre : String) : Bool := pre.data.isPrefixOf s.data

/-- Model of `strings.HasSuffix`. -/
def goHasSuffix (s suf : String) : Bool := suf.data.isSuffixOf s.data

/-- Model of `strings.Contains`. -/
def goContains (s sub : String) : Bool := decide (List.IsInfix sub.data s.data)

/-- Model of `strings.TrimPrefix`. -/
def goTrimPrefixStr (s pre : String) : String :=
  if goHasPrefixStr s pre then String.mk (s.data.drop pre.data.length) else s

/-! ### Configuration

The validated configuration consumed by the engine (`config.go`).  The
optional booleans keep their pointer shape (`none` = nil). -/

structure ConfigInputStruct where
  Explicit : Option Bool
  IncludeUnexported : Option Bool
  deriving DecidableEq

/-- Source `ConfigInputStruct.isExplicit`. -/
def ConfigInputStruct.isExplicit (c : ConfigInputStruct) : Bool := c.Explicit.getD false

/-- Source `ConfigInputStruct.isIncludeUnexported`. -/
def ConfigInputStruct.isIncludeUnexported (c : ConfigInputStruct) : Bool :=
  c.IncludeUnexported.getD false

structure ConfigInputField where
  Explicit : Option Bool
  IncludeUnexported : Option Bool
  deriving DecidableEq

/-- Source `ConfigInputField.isExplicit`. -/
def ConfigInputField.isExplicit (c : ConfigInputField) : Bool := c.Explicit.getD false

/-- Source `ConfigInputField.isIncludeUnexported`. -/
def ConfigInputField.isIncludeUnexported (c : ConfigInputField) : Bool :=
  c.IncludeUnexported.getD false

structure ConfigInput where
  Include : List String
  Exclude : List String
  Dir : String
  Struct : ConfigInputStruct
  Field : ConfigInputField
  deriving DecidableEq

/-- Source `InputModeType` (`tagThenField`, `field`, `tag`); `invalid` stands
for any other string value of the underlying string type. -/
inductive InputModeType where
  | tagThenField | field | tag | invalid
  deriving DecidableEq

structure ConfigTagInput where
  Mode : InputModeType
  TagPriority : List String
  deriving DecidableEq

/-- Source `OutputModeType` (`none`, `struct`, `constant`); `invalid` stands
for any other string value. -/
inductive OutputModeType where
  | noneOut | structOut | constantOut | invalid
  deriving DecidableEq

/-- Source `ConfigTagOutputFormat`; the prefix and suffix fields carry a
trailing underscore in this embedding only to satisfy the identifier rules of
the verification environment. -/
structure ConfigTagOutputFormat where
  Holder : ConstantFormatType
  Struct : ConstantFormatType
  Prefix_ : String
  Suffix_ : String
  deriving DecidableEq

structure ConfigTagOutputTransform where
  TagValues : Option Bool
  ValueCase : TransformCaseType
  ValueSeparator : String
  deriving DecidableEq

structure ConfigTagOutput where
  Mode : OutputModeType
  Format : ConfigTagOutputFormat
  Transform : ConfigTagOutputTransform
  deriving DecidableEq

/-- Source `ConfigTag` (one configured element). -/
structure ConfigTag where
  Name : String
  Input : ConfigTagInput
  Output : ConfigTagOutput
  deriving DecidableEq

structure ConfigGetterOutput where
  Prefix_ : String
  Suffix_ : String
  Format : ConstantFormatType
  deriving DecidableEq

structure ConfigGetter where
  Name : String
  Returns : List String
  Output : ConfigGetterOutput
  deriving DecidableEq

structure ConfigOutput where
  FileName : String
  deriving DecidableEq

structure Config where
  Input : ConfigInput
  Output : ConfigOutput
  Elements : List ConfigTag
  Getters : List ConfigGetter
  deriving DecidableEq

/-! ### Model data (`model.go`) -/

structure ScanError where
  File : String
  Line : Nat
  Message : String
  deriving DecidableEq

structure ConstantOutput where
  Name : String
  Value : String
  deriving DecidableEq

structure FieldOutput where
  StructName : String
  Name : String
  Value : String
  deriving DecidableEq

structure StructOutput where
  Name : String
  Package : String
  Fields : List FieldOutput
  deriving DecidableEq

structure NoneOutput where
  Name : String
  Value : String
  deriving DecidableEq

structure TypePackageOutput where
  Path : String
  Name : String
  Alias : String
  deriving DecidableEq

/-- Source `ValueOutput`; `createValueOutput` always populates the
`TypePackage` pointer, so it is not optional here. -/
structure ValueOutput where
  FieldName : String
  TypeName : String
  TypePackage : TypePackageOutput
  deriving DecidableEq

/-- Source `ReturnOutput`: one pointer per union arm (`None` is spelled
`NoneRet` here). -/
structure ReturnOutput where
  Field : Option FieldOutput
  Constant : Option ConstantOutput
  NoneRet : Option NoneOutput
  Value : Option ValueOutput
  deriving DecidableEq

structure GetterOutput where
  Name : String
  Returns : List ReturnOutput
  deriving DecidableEq

structure StructModel where
  Name : String
  File : String
  LineNumber : Nat
  Constants : List ConstantOutput
  Structs : List StructOutput
  Getters : List GetterOutput
  deriving DecidableEq

structure PackageModel where
  Name : String
  Path : String
  Imports : List TypePackageOutput
  Structs : List StructModel
  deriving DecidableEq

structure Model where
  Packages : List (String × PackageModel)
  FilesScanned : Nat
  PackagesFound : Nat
  StructsFound : Nat
  FieldsFound : Nat
  Errors : List ScanError
  deriving DecidableEq

/-- Source `NewModel`. -/
def NewModel : Model := ⟨[], 0, 0, 0, 0, []⟩

/-- Source `Model.AddError`. -/
def addError (m : Model) (file : String) (line : Nat) (message : String) : Model :=
  { m with Errors := m.Errors ++ [⟨file, line, message⟩] }

/-! ### Type-expression resolution (`extractTypeInfo`, `createValueOutput`)

The import index built per file by `buildImportIndex` arrives as an input
(its construction reads `go.mod`, local directories, the `go list`
subprocess and the module cache).  The iteration order of the Go map is
modelled as the list order; no proved claim depends on it. -/

/-- The shapes of `ast.Expr` distinguished by `extractTypeInfo`.  `sel` is a
selector whose receiver is a plain identifier; `selOther` is a selector on
any other receiver and `other` is any expression kind the switch does not
match — both fall through to the `("", nil)` return. -/
inductive TypeExpr where
  | ident (name : String)
  | sel (pkgIdent selName : String)
  | selOther
  | array (elt : TypeExpr)
  | mapT (key value : TypeExpr)
  | star (x : TypeExpr)
  | chanSend (value : TypeExpr)
  | chanRecv (value : TypeExpr)
  | chanBoth (value : TypeExpr)
  | funcT
  | interfaceT
  | structT
  | indexT (x idx : TypeExpr)
  | indexList (x : TypeExpr) (idxs : List TypeExpr)

/-- Source `importPathHasSegment`. -/
def importPathHasSegment (path seg : String) : Bool :=
  if seg = "" then false
  else (path.data.splitOn '/').contains seg.data

/-- A Go map read `importIndex[k]`. -/
def idxLookup (idx : List (String × TypePackageOutput)) (k : String) :
    Option TypePackageOutput :=
  (idx.find? (fun p => p.1 == k)).map (fun p => p.2)

mutual

/-- Source `extractTypeInfo`: the syntactic type name and the owning package
of a field's declared type. -/
def extractTypeInfo (idx : List (String × TypePackageOutput)) (modulePath : String) :
    TypeExpr → String × Option TypePackageOutput
  | .ident name => (name, none)
  | .sel pid selName =>
    (match idxLookup idx pid with
     | some imp =>
       if imp.Path = "" then (selName, some ⟨imp.Path, imp.Name, ""⟩)
       else (pid ++ "." ++ selName, some ⟨imp.Path, imp.Name, ""⟩)
     | none =>
       let bestMatch :=
         match idx.find? (fun (p : String × TypePackageOutput) =>
             p.2.Name == pid && p.2.Path != "") with
         | some p => some p.2
         | none =>
           (idx.find? (fun (p : String × TypePackageOutput) => p.2.Name == pid)).map
             (fun (p : String × TypePackageOutput) => p.2)
       match bestMatch with
       | some bm =>
         if bm.Path = "" then (selName, some ⟨bm.Path, bm.Name, ""⟩)
         else (pid ++ "." ++ selName, some ⟨bm.Path, bm.Name, ""⟩)
       | none =>
         match idx.find? (fun (p : String × TypePackageOutput) =>
             importPathHasSegment p.2.Path pid && p.2.Path != "") with
         | some p => (pid ++ "." ++ selName, some ⟨p.2.Path, p.2.Name, ""⟩)
         | none => (pid ++ "." ++ selName, some ⟨"", pid, ""⟩))
  | .selOther => ("", none)
  | .array elt =>
    let r := extractTypeInfo idx modulePath elt
    ("[]" ++ r.1, r.2)
  | .mapT k v =>
    let rk := extractTypeInfo idx modulePath k
    let rv := extractTypeInfo idx modulePath v
    ("map[" ++ rk.1 ++ "]" ++ rv.1, rv.2)
  | .star x =>
    let r := extractTypeInfo idx modulePath x
    ("*" ++ r.1, r.2)
  | .chanSend v =>
    let r := extractTypeInfo idx modulePath v
    ("chan<- " ++ r.1, r.2)
  | .chanRecv v =>
    let r := extractTypeInfo idx modulePath v
    ("<-chan " ++ r.1, r.2)
  | .chanBoth v =>
    let r := extractTypeInfo idx modulePath v
    ("chan " ++ r.1, r.2)
  | .funcT => ("func", none)
  | .interfaceT => ("interface\x7b\x7d", none)
  | .structT => ("struct\x7b\x7d", none)
  | .indexT x i =>
    let rb := extractTypeInfo idx modulePath x
    let ri := extractTypeInfo idx modulePath i
    (rb.1 ++ "[" ++ ri.1 ++ "]", rb.2)
  | .indexList x is =>
    let rb := extractTypeInfo idx modulePath x
    (rb.1 ++ "[" ++ String.intercalate ", " (extractTypeInfoNames idx modulePath is) ++ "]", rb.2)

/-- The type-argument names of a generic instantiation, in order. -/
def extractTypeInfoNames (idx : List (String × TypePackageOutput)) (modulePath : String) :
    List TypeExpr → List String
  | [] => []
  | t :: ts => (extractTypeInfo idx modulePath t).1 :: extractTypeInfoNames idx modulePath ts

end

/-- Source `getPackageNameFromGoList`, with the `go list` subprocess as an
oracle returning the trimmed stdout (`none` on error). -/
def getPackageNameFromGoList (goList : String → String → Option String)
    (importPath moduleDir : String) : String :=
  match goList importPath moduleDir with
  | none => ""
  | some name => if name ≠ "" && name ≠ "main" then name else ""

/-- Source `createValueOutput`, with its two package-resolution fix-up passes
over the import index and the `gopkg.in` name heuristic. -/
def createValueOutput (goList : String → String → Option String)
    (fieldType : Option TypeExpr) (fieldName packageName : String)
    (importIndex : List (String × TypePackageOutput))
    (modulePath moduleDir : String) : Option ValueOutput :=
  match fieldType with
  | none => none
  | some te =>
    let r := extractTypeInfo importIndex modulePath te
    let typeName := r.1
    if typeName = "" then none
    else
      let pkg := r.2
      let pkg :=
        match pkg with
        | some p =>
          if p.Path = "" && p.Name ≠ "" then
            match importIndex.find? (fun q => q.2.Name == p.Name && q.2.Path != "") with
            | some q => some (⟨q.2.Path, q.2.Name, ""⟩ : TypePackageOutput)
            | none => pkg
          else pkg
        | none => pkg
      let pkg :=
        if ((pkg.map (fun p => p.Path)).getD "" = "") && goContains typeName "." then
          let pkgName := String.mk (typeName.data.takeWhile (fun c => c ≠ '.'))
          let pkg :=
            match importIndex.find? (fun q => q.2.Name == pkgName && q.2.Path != "") with
            | some q => some (⟨q.2.Path, q.2.Name, ""⟩ : TypePackageOutput)
            | none => pkg
          if (pkg.map (fun p => p.Path)).getD "" = "" then
            match importIndex.find? (fun q =>
                goContains q.1 pkgName && q.2.Path != "" &&
                (goContains q.2.Path pkgName || importPathHasSegment q.2.Path pkgName)) with
            | some q =>
              let name :=
                if goContains q.2.Name "." then
                  let real := getPackageNameFromGoList goList q.2.Path moduleDir
                  if real ≠ "" then real
                  else if goHasPrefixStr q.2.Path "gopkg.in/" then
                    String.mk (((goTrimPrefixStr q.2.Path "gopkg.in/").data.splitOn '.').headD [])
                  else q.2.Name
                else q.2.Name
              some (⟨q.2.Path, name, ""⟩ : TypePackageOutput)
            | none => pkg
          else pkg
        else pkg
      some ⟨fieldName, typeName,
        match pkg with
        | some p => p
        | none => ⟨"", packageName, ""⟩⟩

/-! ### Declaration scanner: inclusion policy -/

/-- Model of `ast.IsExported`: the first character is uppercase. -/
def isExported (name : String) : Bool :=
  match name.data with
  | [] => false
  | c :: _ => goIsUpper c

/-- Source `structDirectives`: scan the attached comment texts (the
declaration's and the type spec's doc groups, flattened) for the reserved
marker substrings. -/
def structDirectives (comments : List String) : Bool × Bool :=
  (comments.any (fun c => goContains (trimSpace c) "constago:include"),
   comments.any (fun c => goContains (trimSpace c) "constago:exclude"))

/-- Source `mustIncludeStruct`, paired with the `ScanError`s it records via
`AddError` (only the directive-conflict error). -/
def mustIncludeStruct (cfg : Config) (comments : List String) (name : String)
    (filePath : String) (line : Nat) : Bool × List ScanError :=
  let d := structDirectives comments
  let includeDirective := d.1
  let excludeDirective := d.2
  if includeDirective && excludeDirective then
    (false, [⟨filePath, line, "struct has both include and exclude directives"⟩])
  else if excludeDirective || (cfg.Input.Struct.isExplicit && !includeDirective) then
    (false, [])
  else if !includeDirective && !cfg.Input.Struct.isIncludeUnexported && !isExported name then
    (false, [])
  else (true, [])

/-- A struct field as the scanner sees it: the identifier list (empty for an
anonymous/embedded field), the tag text with the surrounding backquotes
already trimmed (`strings.Trim(field.Tag.Value, ...)` is applied identically
at both use sites of the source), and the declared type when present. -/
structure FieldInfo where
  names : List String
  tag : Option String
  type : Option TypeExpr

/-- Source `mustIncludeField`. -/
def mustIncludeField (cfg : Config) (field : FieldInfo) : Bool :=
  let tag := parseStructTags (field.tag.getD "")
  let lt := lookupTag tag "constago"
  let constagoTag := lt.1
  let hasConstago := lt.2
  if hasConstago && constagoTag = "exclude" then false
  else if hasConstago && constagoTag = "include" then true
  else if cfg.Input.Field.isExplicit && !hasConstago then false
  else if !cfg.Input.Field.isIncludeUnexported && !field.names.isEmpty &&
      !isExported (field.names.headD "") then false
  else true

/-! ### Value & name engine (`computeElementValue`) -/

/-- The tag-priority loop of `computeElementValue`'s `getFromTags`: the
pseudo-key `:field` yields the field name; otherwise the first present,
non-blank tag value, cut at the first comma. -/
def getFromTagsLoop (fieldName tags : String) : List String → Option String
  | [] => none
  | key :: rest =>
    if key = ":field" then some fieldName
    else
      let lt := lookupTag tags key
      if lt.2 then some (String.mk (lt.1.data.takeWhile (fun c => c ≠ ',')))
      else getFromTagsLoop fieldName tags rest

/-- Source `computeElementValue` helper `getFromTags`. -/
def getFromTags (fieldName tagText : String) (el : ConfigTag) : Option String :=
  if tagText = "" then none
  else getFromTagsLoop fieldName (parseStructTags tagText) el.Input.TagPriority

/-- Source `computeElementValue`. -/
def computeElementValue (fieldName tagText : String) (el : ConfigTag) : String :=
  match el.Input.Mode with
  | .tag =>
    match getFromTags fieldName tagText el with
    | some v =>
      if el.Output.Transform.TagValues.getD false then
        transformFieldValue v el.Output.Transform.ValueCase el.Output.Transform.ValueSeparator
      else v
    | none => ""
  | .field =>
    transformFieldValue fieldName el.Output.Transform.ValueCase el.Output.Transform.ValueSeparator
  | .tagThenField =>
    match getFromTags fieldName tagText el with
    | some v =>
      if el.Output.Transform.TagValues.getD false then
        transformFieldValue v el.Output.Transform.ValueCase el.Output.Transform.ValueSeparator
      else v
    | none =>
      transformFieldValue fieldName el.Output.Transform.ValueCase el.Output.Transform.ValueSeparator
  | .invalid => ""

/-! ### Per-struct scanning state and getter assembly (`scanFile` body) -/

/-- Per-struct scanning state: the four caches of `scanFile`'s struct loop
plus the output collections being accumulated.  Go maps keyed by field name
then element name become association lists keyed by the pair (new entries
shadow older ones, as a map write does); `structsOrder` records the creation
order of the per-element accessor records, which Go keeps by appending the
shared pointer to `structModel.Structs`. -/
structure ScanState where
  constantsByFieldAndElement : List ((String × String) × ConstantOutput)
  noneByFieldAndElement : List ((String × String) × NoneOutput)
  structFieldByFieldAndElement : List ((String × String) × FieldOutput)
  structsOrder : List String
  structByElement : List (String × StructOutput)
  outConstants : List ConstantOutput
  outGetters : List GetterOutput
  deriving DecidableEq

def emptyScanState : ScanState := ⟨[], [], [], [], [], [], []⟩

/-- A Go map read on a `(field, element)`-keyed cache. -/
def assocFind {β : Type} (l : List ((String × String) × β)) (k : String × String) :
    Option β :=
  (l.find? (fun p => p.1 == k)).map (fun p => p.2)

/-- A Go map read on the per-element accessor-record cache. -/
def elemFind (l : List (String × StructOutput)) (k : String) : Option StructOutput :=
  (l.find? (fun p => p.1 == k)).map (fun p => p.2)

/-- The per-element artifact step of `scanFile` for one field name: compute
the element value and, unless it is empty, produce the configured constant,
accessor-record field, or transient none-value. -/
def processElement (structName packageName fieldName tagText : String)
    (el : ConfigTag) (st : ScanState) : ScanState :=
  let value := computeElementValue fieldName tagText el
  if value = "" then st
  else
    match el.Output.Mode with
    | .constantOut =>
      let constName := buildName el.Output.Format.Prefix_ structName fieldName
        el.Output.Format.Suffix_ el.Output.Format.Struct
      let c : ConstantOutput := ⟨constName, value⟩
      { st with
        outConstants := st.outConstants ++ [c],
        constantsByFieldAndElement := ((fieldName, el.Name), c) :: st.constantsByFieldAndElement }
    | .structOut =>
      let existing := elemFind st.structByElement el.Name
      let so :=
        match existing with
        | some so => so
        | none =>
          ⟨buildName el.Output.Format.Prefix_ structName "" el.Output.Format.Suffix_
             el.Output.Format.Struct, packageName, []⟩
      let fieldConstName := buildName "" fieldName "" "" el.Output.Format.Holder
      let fo : FieldOutput := ⟨so.Name, fieldConstName, value⟩
      let so' := { so with Fields := so.Fields ++ [fo] }
      { st with
        structByElement := (el.Name, so') :: st.structByElement,
        structsOrder :=
          if existing.isNone then st.structsOrder ++ [el.Name] else st.structsOrder,
        structFieldByFieldAndElement :=
          ((fieldName, el.Name), fo) :: st.structFieldByFieldAndElement }
    | .noneOut =>
      { st with
        noneByFieldAndElement :=
          ((fieldName, el.Name), ⟨fieldName, value⟩) :: st.noneByFieldAndElement }
    | .invalid => st

/-- One getter-return token resolved as in `scanFile`: a `:`-prefixed token
yields the field's value for `:value` (and nothing for any other special
token); any other token is looked up as a constant, then a transient
none-value (emitted with its `Name` set to the element name, as the source
mutation does), then an accessor-record field. -/
def resolveReturn (st : ScanState) (fieldName : String)
    (valueOutput : Option ValueOutput) (ret : String) : Option ReturnOutput :=
  if goHasPrefixStr ret ":" then
    if ret = ":value" then
      match valueOutput with
      | some vo => some ⟨none, none, none, some vo⟩
      | none => none
    else none
  else
    match assocFind st.constantsByFieldAndElement (fieldName, ret) with
    | some cm => some ⟨none, some cm, none, none⟩
    | none =>
      match assocFind st.noneByFieldAndElement (fieldName, ret) with
      | some no => some ⟨none, none, some { no with Name := ret }, none⟩
      | none =>
        match assocFind st.structFieldByFieldAndElement (fieldName, ret) with
        | some so => some ⟨some so, none, none, none⟩
        | none => none

/-- The per-getter step of `scanFile` for one field name: resolve the
configured return tokens in order and add the getter only when every token
produced a return. -/
def processGetter (fieldName : String) (valueOutput : Option ValueOutput)
    (g : ConfigGetter) (st : ScanState) : ScanState :=
  let getterName := buildName g.Output.Prefix_ fieldName g.Output.Suffix_ "" g.Output.Format
  let returns := g.Returns.filterMap (resolveReturn st fieldName valueOutput)
  if returns.length = g.Returns.length then
    { st with outGetters := st.outGetters ++ [⟨getterName, returns⟩] }
  else st

/-- The body of `scanFile`'s loop over one identifier of a field: all element
artifacts, then all getters (the source calls `createValueOutput` per
`:value` token; the call is pure given the oracle, so it is hoisted). -/
def processFieldName (goList : String → String → Option String) (cfg : Config)
    (structName packageName : String)
    (importIndex : List (String × TypePackageOutput)) (modulePath moduleDir : String)
    (field : FieldInfo) (st : ScanState) (fieldName : String) : ScanState :=
  let tagText := field.tag.getD ""
  let st := cfg.Elements.foldl
    (fun st el => processElement structName packageName fieldName tagText el st) st
  let valueOutput := createValueOutput goList field.type fieldName packageName
    importIndex modulePath moduleDir
  cfg.Getters.foldl (fun st g => processGetter fieldName valueOutput g st) st

/-- The body of `scanFile`'s loop over one field: anonymous fields are
skipped, the inclusion policy is applied, then every identifier of the field
is processed. -/
def processField (goList : String → String → Option String) (cfg : Config)
    (structName packageName : String)
    (importIndex : List (String × TypePackageOutput)) (modulePath moduleDir : String)
    (st : ScanState) (field : FieldInfo) : ScanState :=
  if field.names.isEmpty then st
  else if !mustIncludeField cfg field then st
  else field.names.foldl
    (processFieldName goList cfg structName packageName importIndex modulePath moduleDir field)
    st

/-- A struct type declaration as the scanner sees it after parsing. -/
structure StructDecl where
  name : String
  line : Nat
  comments : List String
  fields : List FieldInfo

/-- The accessor records of a struct model, in creation order (Go appends the
shared pointers as they are created). -/
def materializeStructs (st : ScanState) : List StructOutput :=
  st.structsOrder.filterMap (elemFind st.structByElement)

/-- The per-struct body of `scanFile`: the inclusion decision (with its
possible conflict error), the per-field element and getter processing, and
the discard of a struct model with no produced artifacts. -/
def scanStruct (goList : String → String → Option String) (cfg : Config)
    (filePath packageName : String)
    (importIndex : List (String × TypePackageOutput)) (modulePath moduleDir : String)
    (d : StructDecl) : Option StructModel × List ScanError :=
  let inc := mustIncludeStruct cfg d.comments d.name filePath d.line
  if !inc.1 then (none, inc.2)
  else
    let st := d.fields.foldl
      (processField goList cfg d.name packageName importIndex modulePath moduleDir)
      emptyScanState
    let sm : StructModel :=
      ⟨d.name, filePath, d.line, st.outConstants, materializeStructs st, st.outGetters⟩
    if !sm.Constants.isEmpty || !sm.Structs.isEmpty || !sm.Getters.isEmpty then
      (some sm, inc.2)
    else (none, inc.2)

/-! ### Source walker (`findFiles`, `expandPattern`, `findPackageFiles`) -/

/-- Oracles for the walker's filesystem collaborators: the matches of
`doublestar.Glob` per pattern (`none` models a pattern-syntax error), the
`filepath.Walk` enumeration under the base directory (path, is-directory
flag), and the package clause a partial parse of each file yields (`none`
models a parse failure, silently skipped). -/
structure WalkOracles where
  glob : String → Option (List String)
  walkFiles : List (String × Bool)
  packageClause : String → Option String

/-- Model of `filepath.Join` for clean inputs; Go additionally runs
`filepath.Clean`, which preserves a final `.go` segment. -/
def filepathJoin (dir p : String) : String := dir ++ "/" ++ p

/-- Source `findPackageFiles`: among the walked entries, keep the files (not
directories) ending in `.go` whose parsed package clause equals the requested
package name. -/
def findPackageFiles (o : WalkOracles) (packageName : String) : List String :=
  (o.walkFiles.filter (fun pf =>
    !pf.2 && goHasSuffix pf.1 ".go" && o.packageClause pf.1 == some packageName)).map
    (fun pf => pf.1)

/-- Source `expandPattern`: the `package:` pseudo-pattern delegates to
`findPackageFiles`; otherwise glob under the base directory, keep the matches
ending in `.go`, and join them onto the base directory. -/
def expandPattern (o : WalkOracles) (dir pattern : String) :
    Except String (List String) :=
  if goHasPrefixStr pattern "package:" then
    .ok (findPackageFiles o (goTrimPrefixStr pattern "package:"))
  else
    match o.glob pattern with
    | none => .error ("invalid glob pattern " ++ pattern)
    | some ms => .ok ((ms.filter (fun m => goHasSuffix m ".go")).map (filepathJoin dir))

/-- The pattern loops of `findFiles`: expand each pattern, failing on the
first pattern error. -/
def expandAll (o : WalkOracles) (dir : String) :
    List String → Except String (List String)
  | [] => .ok []
  | p :: rest =>
    match expandPattern o dir p with
    | .error e => .error ("failed to expand pattern " ++ p ++ ": " ++ e)
    | .ok ps =>
      match expandAll o dir rest with
      | .error e => .error e
      | .ok qs => .ok (ps ++ qs)

/-- Source `findFiles`: the deduplicated include expansion minus the exclude
expansion.  Go returns the keys of a map in unspecified order; the model
returns the includes in encounter order, which the claims (about membership)
do not depend on. -/
def findFiles (o : WalkOracles) (cfg : Config) : Except String (List String) :=
  match expandAll o cfg.Input.Dir cfg.Input.Exclude with
  | .error e => .error e
  | .ok ex =>
    match expandAll o cfg.Input.Dir cfg.Input.Include with
    | .error e => .error e
    | .ok inc => .ok ((inc.filter (fun p => !ex.contains p)).dedup)

/-! ### Model aggregator (`AddStruct`)

`setRecursiveAlias` iterates the package's `Imports` map, whose enumeration
order Go leaves unspecified, and recursively restarts a fresh enumeration
after every alias assignment.  The walk is therefore a relation quantified
over every enumeration order.  The entry under renaming is skipped inside the
loop by its `Path`; since the map is keyed by path, the relations below
equivalently range over the other imports only. -/

/-- The collision test of `setRecursiveAlias`: an import whose name or
previously assigned alias equals the current name-or-alias. -/
def aliasMatches (x : String) (e : TypePackageOutput) : Bool :=
  e.Name == x || e.Alias == x

/-- One evaluation of `setRecursiveAlias`'s `range` loop.  `LoopRel others l
n a r` relates the remaining iteration list `l` (each `range` evaluation
enumerates the map in an arbitrary order — hence the permutations in `hit`
and in `TopWalk`), the current name-or-alias `n` being matched, the alias
currently stored on the import under renaming `a`, and the alias stored when
this loop finishes `r`.  A hit stores the underscore-prefixed alias and
immediately recurses on a fresh full enumeration before the loop resumes. -/
inductive LoopRel (others : List TypePackageOutput) :
    List TypePackageOutput → String → String → String → Prop where
  | nil {n a} : LoopRel others [] n a a
  | skip {e rest n a r} : aliasMatches n e = false →
      LoopRel others rest n a r → LoopRel others (e :: rest) n a r
  | hit {e rest n a a' r l'} : aliasMatches n e = true → l'.Perm others →
      LoopRel others l' ("_" ++ n) ("_" ++ n) a' →
      LoopRel others rest n a' r → LoopRel others (e :: rest) n a r

/-- `setRecursiveAlias` invoked by `AddStruct` on a freshly inserted import
that currently carries alias `a0` and is matched under its name `n`: some
enumeration of the other imports is walked, leaving final alias `r`. -/
def TopWalk (others : List TypePackageOutput) (n a0 r : String) : Prop :=
  ∃ l, l.Perm others ∧ LoopRel others l n a0 r

/-- The import-registration loop of `AddStruct` over the type packages of a
struct's getter value-returns, in getter order: an already present path is
skipped; a new path is inserted and `setRecursiveAlias` resolves its alias
against the previously registered imports. -/
inductive RegImports : List TypePackageOutput → List TypePackageOutput →
    List TypePackageOutput → Prop where
  | nil {cur} : RegImports cur [] cur
  | present {cur tp rest fin} : (∃ e ∈ cur, e.Path = tp.Path) →
      RegImports cur rest fin → RegImports cur (tp :: rest) fin
  | absent {cur tp rest fin r} : (∀ e ∈ cur, e.Path ≠ tp.Path) →
      TopWalk cur tp.Name tp.Alias r →
      RegImports (cur ++ [{ tp with Alias := r }]) rest fin →
      RegImports cur (tp :: rest) fin

/-- The type packages of a struct's getter value-returns, in the order
`AddStruct`'s loops visit them. -/
def gatherTypePackages (sm : StructModel) : List TypePackageOutput :=
  List.flatten (sm.Getters.map (fun g =>
    g.Returns.filterMap (fun r => r.Value.map (fun v => v.TypePackage))))

/-- The Go map read `m.Packages[packagePath]`. -/
def lookupPackage (m : Model) (path : String) : Option PackageModel :=
  (m.Packages.find? (fun p => p.1 == path)).map (fun p => p.2)

/-- A Go map write over an existing key. -/
def pkgReplace (ps : List (String × PackageModel)) (path : String)
    (pkg : PackageModel) : List (String × PackageModel) :=
  ps.map (fun p => if p.1 == path then (path, pkg) else p)

/-- Source `Model.AddStruct`, as a relation (the alias walk depends on map
iteration order): the package entry is created lazily, every value-return
type package is registered, and the struct is appended unconditionally with
the struct counter incremented. -/
inductive AddStructRel : Model → String → String → StructModel → Model → Prop where
  | fresh {m path name sm imps} : lookupPackage m path = none →
      RegImports [] (gatherTypePackages sm) imps →
      AddStructRel m path name sm
        { m with
          Packages := m.Packages ++ [(path, ⟨name, path, imps, [sm]⟩)],
          PackagesFound := m.PackagesFound + 1,
          StructsFound := m.StructsFound + 1 }
  | existing {m path name sm pkg imps} : lookupPackage m path = some pkg →
      RegImports pkg.Imports (gatherTypePackages sm) imps →
      AddStructRel m path name sm
        { m with
          Packages := pkgReplace m.Packages path
            { pkg with Imports := imps, Structs := pkg.Structs ++ [sm] },
          StructsFound := m.StructsFound + 1 }

/-- A sequence of `AddStruct` calls. -/
inductive ReachRel : Model → List (String × String × StructModel) → Model → Prop where
  | nil {m} : ReachRel m [] m
  | cons {m c cs m₁ m'} : AddStructRel m c.1 c.2.1 c.2.2 m₁ →
      ReachRel m₁ cs m' → ReachRel m (c :: cs) m'

/-! ### Per-file scanning (`scanFile`) -/

/-- The parser's error report: a best-effort line (0 when no position is
available) and the error message. -/
structure ParseErrInfo where
  line : Nat
  msg : String

/-- A successfully parsed file: its package clause, the import index and
module information produced by `buildImportIndex`/`locateGoModule` (built
from the file's imports, `go.mod`, and the external resolution chain), and
its struct type declarations in file order. -/
structure ParsedFile where
  packageName : String
  importIndex : List (String × TypePackageOutput)
  modulePath : String
  moduleDir : String
  structs : List StructDecl

def appendErrors (m : Model) (errs : List ScanError) : Model :=
  { m with Errors := m.Errors ++ errs }

/-- The struct-declaration loop of `scanFile` over a parsed file, as a
relation (it calls `AddStruct`). -/
inductive ScanStructsRel (goList : String → String → Option String)
    (cfg : Config) (filePath packagePath : String) (pf : ParsedFile) :
    Model → List StructDecl → Model → Prop where
  | nil {m} : ScanStructsRel goList cfg filePath packagePath pf m [] m
  | drop {m d ds m' errs} :
      scanStruct goList cfg filePath pf.packageName pf.importIndex pf.modulePath
        pf.moduleDir d = (none, errs) →
      ScanStructsRel goList cfg filePath packagePath pf (appendErrors m errs) ds m' →
      ScanStructsRel goList cfg filePath packagePath pf m (d :: ds) m'
  | add {m d ds m₁ m' errs sm} :
      scanStruct goList cfg filePath pf.packageName pf.importIndex pf.modulePath
        pf.moduleDir d = (some sm, errs) →
      AddStructRel (appendErrors m errs) packagePath pf.packageName sm m₁ →
      ScanStructsRel goList cfg filePath packagePath pf m₁ ds m' →
      ScanStructsRel goList cfg filePath packagePath pf m (d :: ds) m'

/-- Source `scanFile`: the scanned-files counter always increments first; a
parse failure records exactly one `ScanError` (with the parser's best-effort
line and formatted message) and returns Go `nil`; a parsed file is scanned
struct by struct, also returning `nil` (the function has no other return).
The parse outcome and the file's package path (`extractPackagePath`, a
filesystem-dependent path normalization) are inputs. -/
inductive ScanFileRel (goList : String → String → Option String) (cfg : Config) :
    Model → String → String → Except ParseErrInfo ParsedFile →
    Model × Option String → Prop where
  | parseError {m filePath packagePath e} :
      ScanFileRel goList cfg m filePath packagePath (.error e)
        (addError { m with FilesScanned := m.FilesScanned + 1 } filePath e.line
          ("failed to parse file: " ++ e.msg), none)
  | parsed {m filePath packagePath pf m'} :
      ScanStructsRel goList cfg filePath packagePath pf
        { m with FilesScanned := m.FilesScanned + 1 } pf.structs m' →
      ScanFileRel goList cfg m filePath packagePath (.ok pf) (m', none)

/-! ### Shared helper lemmas -/

theorem assocFind_cons_ne {β : Type} (l : List ((String × String) × β))
    (k k' : String × String) (v : β) (h : ¬k' = k) :
    assocFind ((k', v) :: l) k = assocFind l k := by
  simp [assocFind, List.find?_cons, h]

theorem filterMap_length_lt_of_none {α β : Type} (f : α → Option β) (l : List α)
    (h : ∃ x ∈ l, f x = none) : (l.filterMap f).length < l.length := by
  induction l with
  | nil => simp at h
  | cons a t ih =>
    rcases h with ⟨x, hx, hfx⟩
    rcases List.mem_cons.mp hx with rfl | hxt
    · rw [List.filterMap_cons, hfx]
      exact Nat.lt_succ_of_le (List.length_filterMap_le f t)
    · rw [List.filterMap_cons]
      cases hfa : f a with
      | none => exact Nat.lt_succ_of_le (List.length_filterMap_le f t)
      | some b => simpa using ih ⟨x, hxt, hfx⟩

/-! ### Sample data used by witnesses -/

/-- A defaulted configuration with one constant element on the `json` tag and
one getter requesting the field's value and the `json` element. -/
def sampleElement : ConfigTag :=
  ⟨"json", ⟨.tag, ["json"]⟩,
   ⟨.constantOut, ⟨.pascal, .pascal, "Json", ""⟩, ⟨some false, .asIs, ""⟩⟩⟩

def sampleGetter : ConfigGetter :=
  ⟨"get", [":value", "json"], ⟨"Get", "", .pascal⟩⟩

def sampleConfig : Config :=
  ⟨⟨["**/*.go"], ["**/*_test.go"], ".", ⟨some false, some false⟩, ⟨some false, some false⟩⟩,
   ⟨"constago_gen.go"⟩, [sampleElement], [sampleGetter]⟩

/-! ### Claim theorems -/

/-- C7: `transformFieldValue "first_name"` with pascal case and separator
`" "` yields `"First Name"`, and `transformFieldValue "FirstName"` with the
snake-equivalent configuration (lower case, separator `"_"`) yields
`"first_name"`: the transform splits on `_ - space . /` and on uppercase
letters after a non-uppercase character, applies the case, and rejoins with
the separator. -/
theorem c7_transform_examples :
    transformFieldValue "first_name" .pascal " " = "First Name" ∧
    transformFieldValue "FirstName" .lower "_" = "first_name" := by
  exact ⟨by decide, by decide⟩

/-- C2: a struct whose attached comments carry neither directive is included
iff struct-explicit mode is disabled and (unexported structs are included or
the name is exported). -/
theorem c2_no_directive_inclusion (cfg : Config) (comments : List String)
    (name filePath : String) (line : Nat)
    (h : structDirectives comments = (false, false)) :
    (mustIncludeStruct cfg comments name filePath line).1 =
      (!cfg.Input.Struct.isExplicit &&
        (cfg.Input.Struct.isIncludeUnexported || isExported name)) := by
  unfold mustIncludeStruct
  rw [h]
  cases hex : cfg.Input.Struct.isExplicit <;>
    cases hiu : cfg.Input.Struct.isIncludeUnexported <;>
      cases hexp : isExported name <;> simp [hex, hiu, hexp]

/-- Witness for C2 at a concrete configuration, struct name and comment
list. -/
theorem c2_no_directive_inclusion_witness :
    (mustIncludeStruct sampleConfig ["- User holds a user"] "User" "user.go" 3).1 =
      (!sampleConfig.Input.Struct.isExplicit &&
        (sampleConfig.Input.Struct.isIncludeUnexported || isExported "User")) :=
  c2_no_directive_inclusion sampleConfig ["- User holds a user"] "User" "user.go" 3
    (by decide)

/-- C5: a reserved field-tag value of `exclude` always drops the field and a
value of `include` always keeps it, independently of field-explicit mode,
unexported-field inclusion and export status; and a struct-level directive
conflict drops the whole struct with one recorded conflict error, before any
field policy is consulted (for every field list and configuration). -/
theorem c5_field_tag_overrides (cfg : Config) (field : FieldInfo)
    (goList : String → String → Option String) (filePath packageName : String)
    (importIndex : List (String × TypePackageOutput)) (modulePath moduleDir : String)
    (d : StructDecl) :
    (lookupTag (parseStructTags (field.tag.getD "")) "constago" = ("exclude", true) →
      mustIncludeField cfg field = false) ∧
    (lookupTag (parseStructTags (field.tag.getD "")) "constago" = ("include", true) →
      mustIncludeField cfg field = true) ∧
    (structDirectives d.comments = (true, true) →
      scanStruct goList cfg filePath packageName importIndex modulePath moduleDir d =
        (none, [⟨filePath, d.line, "struct has both include and exclude directives"⟩])) := by
  refine ⟨fun h => ?_, fun h => ?_, fun h => ?_⟩
  · simp [mustIncludeField, h]
  · simp [mustIncludeField, h]
  · unfold scanStruct mustIncludeStruct
    rw [h]
    simp

/-- Witness for C5 at a concrete excluded field, a concrete included field,
and a concretely conflicted struct. -/
theorem c5_field_tag_overrides_witness :
    mustIncludeField sampleConfig ⟨["Name"], some "constago:\"exclude\"", none⟩ = false ∧
    mustIncludeField sampleConfig ⟨["name"], some "constago:\"include\"", none⟩ = true ∧
    scanStruct (fun _ _ => none) sampleConfig "user.go" "main" [] "" ""
        ⟨"User", 3, ["constago:include", "constago:exclude"], []⟩ =
      (none, [⟨"user.go", 3, "struct has both include and exclude directives"⟩]) := by
  refine ⟨?_, ?_, ?_⟩
  · exact (c5_field_tag_overrides sampleConfig ⟨["Name"], some "constago:\"exclude\"", none⟩
      (fun _ _ => none) "user.go" "main" [] "" "" ⟨"User", 3, [], []⟩).1 (by decide)
  · exact (c5_field_tag_overrides sampleConfig ⟨["name"], some "constago:\"include\"", none⟩
      (fun _ _ => none) "user.go" "main" [] "" "" ⟨"User", 3, [], []⟩).2.1 (by decide)
  · exact (c5_field_tag_overrides sampleConfig ⟨["Name"], none, none⟩
      (fun _ _ => none) "user.go" "main" [] "" ""
      ⟨"User", 3, ["constago:include", "constago:exclude"], []⟩).2.2 (by decide)

/-- C6: a file whose parse fails contributes exactly one `ScanError` carrying
the file path, the best-effort line and the formatted message, increments the
scanned-files counter, changes nothing else in the model, and the scan
returns Go `nil` so the run continues; `AddError` is append-only and touches
only the error list. -/
theorem c6_parse_failure_recoverable (goList : String → String → Option String)
    (cfg : Config) (m : Model) (filePath packagePath : String) (e : ParseErrInfo)
    (out : Model × Option String)
    (h : ScanFileRel goList cfg m filePath packagePath (.error e) out) :
    out = ({ m with
              FilesScanned := m.FilesScanned + 1,
              Errors := m.Errors ++ [⟨filePath, e.line, "failed to parse file: " ++ e.msg⟩] },
           none) ∧
    ∀ (m' : Model) (f : String) (l : Nat) (s : String),
      (addError m' f l s).Errors = m'.Errors ++ [⟨f, l, s⟩] ∧
      (addError m' f l s).Packages = m'.Packages ∧
      (addError m' f l s).StructsFound = m'.StructsFound := by
  cases h
  exact ⟨rfl, fun _ _ _ _ => ⟨rfl, rfl, rfl⟩⟩

theorem scanStruct_snd (goList : String → String → Option String) (cfg : Config)
    (filePath packageName : String) (importIndex : List (String × TypePackageOutput))
    (modulePath moduleDir : String) (d : StructDecl) :
    (scanStruct goList cfg filePath packageName importIndex modulePath moduleDir d).2 =
      (mustIncludeStruct cfg d.comments d.name filePath d.line).2 := by
  unfold scanStruct
  cases h : (mustIncludeStruct cfg d.comments d.name filePath d.line).1 with
  | false => simp [h]
  | true =>
    simp only [h, Bool.not_true]
    rw [if_neg (by simp)]
    split <;> rfl

theorem mustIncludeStruct_errs (cfg : Config) (comments : List String)
    (name filePath : String) (line : Nat)
    (h : ¬structDirectives comments = (true, true)) :
    (mustIncludeStruct cfg comments name filePath line).2 = [] := by
  unfold mustIncludeStruct
  rcases hd : structDirectives comments with ⟨i, ex⟩
  cases i <;> cases ex <;> simp_all <;> split <;> simp_all <;> split <;> rfl

/-- C1: getter assembly is all-or-nothing: the processing of one configured
getter for one field either leaves the state unchanged or appends exactly one
getter whose return list has exactly the configured length; if any single
return token resolves to nothing, the state is unchanged (no getter and no
partial return list); and a struct without a directive conflict records no
error at all, so an unsatisfied getter is silent. -/
theorem c1_getter_all_or_nothing (cfg : Config) (fieldName : String)
    (valueOutput : Option ValueOutput) (g : ConfigGetter) (st : ScanState)
    (goList : String → String → Option String) (filePath packageName : String)
    (importIndex : List (String × TypePackageOutput)) (modulePath moduleDir : String)
    (d : StructDecl) :
    (processGetter fieldName valueOutput g st = st ∨
      ∃ gout, processGetter fieldName valueOutput g st =
          { st with outGetters := st.outGetters ++ [gout] } ∧
        gout.Returns.length = g.Returns.length) ∧
    ((∃ ret ∈ g.Returns, resolveReturn st fieldName valueOutput ret = none) →
      processGetter fieldName valueOutput g st = st) ∧
    (¬structDirectives d.comments = (true, true) →
      (scanStruct goList cfg filePath packageName importIndex modulePath moduleDir d).2 = []) := by
  refine ⟨?_, ?_, ?_⟩
  · unfold processGetter
    by_cases hlen : (g.Returns.filterMap (resolveReturn st fieldName valueOutput)).length =
        g.Returns.length
    · right
      exact ⟨⟨buildName g.Output.Prefix_ fieldName g.Output.Suffix_ "" g.Output.Format,
        g.Returns.filterMap (resolveReturn st fieldName valueOutput)⟩, by simp [hlen], hlen⟩
    · left; simp [hlen]
  · intro hex
    have hlt := filterMap_length_lt_of_none (resolveReturn st fieldName valueOutput)
      g.Returns hex
    unfold processGetter
    simp [Nat.ne_of_lt hlt]
  · intro hnc
    rw [scanStruct_snd]
    exact mustIncludeStruct_errs cfg d.comments d.name filePath d.line hnc

/-- Witness for C1: a getter requesting `:value` on a field whose type could
not be determined is entirely absent and the state is unchanged. -/
theorem c1_getter_all_or_nothing_witness :
    processGetter "Name" none sampleGetter emptyScanState = emptyScanState :=
  (c1_getter_all_or_nothing sampleConfig "Name" none sampleGetter emptyScanState
    (fun _ _ => none) "user.go" "main" [] "" "" ⟨"User", 3, [], []⟩).2.1
    ⟨":value", by decide, by decide⟩

theorem processElement_preserves_miss (structName packageName fieldName tagText ret : String)
    (e : ConfigTag) (st : ScanState)
    (hval : e.Name = ret → computeElementValue fieldName tagText e = "")
    (hc : assocFind st.constantsByFieldAndElement (fieldName, ret) = none)
    (hn : assocFind st.noneByFieldAndElement (fieldName, ret) = none)
    (hs : assocFind st.structFieldByFieldAndElement (fieldName, ret) = none) :
    (assocFind (processElement structName packageName fieldName tagText e st).constantsByFieldAndElement
        (fieldName, ret) = none) ∧
    (assocFind (processElement structName packageName fieldName tagText e st).noneByFieldAndElement
        (fieldName, ret) = none) ∧
    (assocFind (processElement structName packageName fieldName tagText e st).structFieldByFieldAndElement
        (fieldName, ret) = none) := by
  by_cases hname : e.Name = ret
  · simp [processElement, hval hname, hc, hn, hs]
  · have hkey : ¬((fieldName, e.Name) = (fieldName, ret)) := by
      intro hk; exact hname (congrArg Prod.snd hk)
    unfold processElement
    by_cases hv : computeElementValue fieldName tagText e = ""
    · simp [hv, hc, hn, hs]
    · simp only [hv, if_neg, ite_false]
      cases e.Output.Mode <;>
        simp_all [assocFind_cons_ne _ _ _ _ hkey]

theorem foldl_processElement_preserves_miss
    (structName packageName fieldName tagText ret : String) (els : List ConfigTag) :
    ∀ (st : ScanState),
      (∀ e ∈ els, e.Name = ret → computeElementValue fieldName tagText e = "") →
      assocFind st.constantsByFieldAndElement (fieldName, ret) = none →
      assocFind st.noneByFieldAndElement (fieldName, ret) = none →
      assocFind st.structFieldByFieldAndElement (fieldName, ret) = none →
      (assocFind (els.foldl (fun st el =>
          processElement structName packageName fieldName tagText el st) st).constantsByFieldAndElement
          (fieldName, ret) = none) ∧
      (assocFind (els.foldl (fun st el =>
          processElement structName packageName fieldName tagText el st) st).noneByFieldAndElement
          (fieldName, ret) = none) ∧
      (assocFind (els.foldl (fun st el =>
          processElement structName packageName fieldName tagText el st) st).structFieldByFieldAndElement
          (fieldName, ret) = none) := by
  induction els with
  | nil => exact fun st _ hc hn hs => ⟨hc, hn, hs⟩
  | cons e t ih =>
    intro st hall hc hn hs
    have h1 := processElement_preserves_miss structName packageName fieldName tagText ret e st
      (hall e (List.mem_cons_self e t)) hc hn hs
    simpa [List.foldl_cons] using
      ih (processElement structName packageName fieldName tagText e st)
        (fun e' he' => hall e' (List.mem_cons_of_mem e he')) h1.1 h1.2.1 h1.2.2

/-- C9: a field/element pair whose computed raw value is empty produces no
constant, no accessor field and no none-value (the state is untouched for
that element); consequently, when every configured element carrying a token's
name computes an empty value for the field, that token resolves to no return
for the field in any getter. -/
theorem c9_empty_value_no_outputs (cfg : Config)
    (structName packageName fieldName tagText ret : String) (el : ConfigTag)
    (st st0 : ScanState) (valueOutput : Option ValueOutput) :
    (computeElementValue fieldName tagText el = "" →
      processElement structName packageName fieldName tagText el st = st) ∧
    ((∀ e ∈ cfg.Elements, e.Name = ret → computeElementValue fieldName tagText e = "") →
      goHasPrefixStr ret ":" = false →
      assocFind st0.constantsByFieldAndElement (fieldName, ret) = none →
      assocFind st0.noneByFieldAndElement (fieldName, ret) = none →
      assocFind st0.structFieldByFieldAndElement (fieldName, ret) = none →
      resolveReturn
        (cfg.Elements.foldl (fun st el =>
          processElement structName packageName fieldName tagText el st) st0)
        fieldName valueOutput ret = none) := by
  constructor
  · intro h; simp [processElement, h]
  · intro hall hpre hc hn hs
    have h3 := foldl_processElement_preserves_miss structName packageName fieldName tagText
      ret cfg.Elements st0 hall hc hn hs
    simp [resolveReturn, hpre, h3.1, h3.2.1, h3.2.2]

/-- Witness for C9: a tag-mode element named `json` on a field with no tag
computes the empty value, so the `json` token resolves to no return. -/
theorem c9_empty_value_no_outputs_witness :
    processElement "User" "main" "Name" "" sampleElement emptyScanState = emptyScanState ∧
    resolveReturn
      (sampleConfig.Elements.foldl (fun st el =>
        processElement "User" "main" "Name" "" el st) emptyScanState)
      "Name" none "json" = none := by
  constructor
  · exact (c9_empty_value_no_outputs sampleConfig "User" "main" "Name" "" "json"
      sampleElement emptyScanState emptyScanState none).1 (by decide)
  · exact (c9_empty_value_no_outputs sampleConfig "User" "main" "Name" "" "json"
      sampleElement emptyScanState emptyScanState none).2 (by decide) (by decide)
      (by decide) (by decide) (by decide)

theorem goHasSuffix_filepathJoin (dir m suf : String) (h : goHasSuffix m suf = true) :
    goHasSuffix (filepathJoin dir m) suf = true := by
  unfold goHasSuffix at *
  unfold filepathJoin
  rw [List.isSuffixOf_iff_suffix] at *
  have : (dir ++ "/" ++ m).data = (dir ++ "/").data ++ m.data := rfl
  rw [this]
  exact h.trans (List.suffix_append (dir ++ "/").data m.data)

theorem expandPattern_go (o : WalkOracles) (dir pattern : String) (ps : List String)
    (hok : expandPattern o dir pattern = .ok ps) :
    ∀ f ∈ ps, goHasSuffix f ".go" = true := by
  unfold expandPattern at hok
  split at hok
  · cases hok
    intro f hf
    unfold findPackageFiles at hf
    rcases List.mem_map.mp hf with ⟨pf, hpf, rfl⟩
    have := (List.mem_filter.mp hpf).2
    simp only [Bool.and_eq_true] at this
    exact this.1.2
  · cases hg : o.glob pattern with
    | none => rw [hg] at hok; simp at hok
    | some ms =>
      rw [hg] at hok
      simp only [Except.ok.injEq] at hok
      subst hok
      intro f hf
      rcases List.mem_map.mp hf with ⟨m, hm, rfl⟩
      exact goHasSuffix_filepathJoin dir m ".go" (List.mem_filter.mp hm).2

theorem expandAll_go (o : WalkOracles) (dir : String) (pats : List String) :
    ∀ (ps : List String), expandAll o dir pats = .ok ps →
      ∀ f ∈ ps, goHasSuffix f ".go" = true := by
  induction pats with
  | nil =>
    intro ps h
    simp only [expandAll, Except.ok.injEq] at h
    subst h; intro f hf; simp at hf
  | cons p rest ih =>
    intro ps h
    unfold expandAll at h
    cases he : expandPattern o dir p with
    | error e => rw [he] at h; simp at h
    | ok qs =>
      rw [he] at h
      cases hr : expandAll o dir rest with
      | error e => rw [hr] at h; simp at h
      | ok ts =>
        rw [hr] at h
        simp only [Except.ok.injEq] at h
        subst h
        intro f hf
        rcases List.mem_append.mp hf with hf | hf
        · exact expandPattern_go o dir p qs he f hf
        · exact ih ts hr f hf

/-- C10: every path produced by pattern expansion — and hence every file the
scanner is handed by `findFiles` — ends with `.go`: glob matches not ending
in `.go` are filtered out, and the package pseudo-pattern only ever keeps
files ending in `.go`. -/
theorem c10_only_go_files (o : WalkOracles) (cfg : Config) :
    (∀ (dir pattern : String) (ps : List String),
      expandPattern o dir pattern = .ok ps → ∀ f ∈ ps, goHasSuffix f ".go" = true) ∧
    (∀ (files : List String), findFiles o cfg = .ok files →
      ∀ f ∈ files, goHasSuffix f ".go" = true) := by
  constructor
  · exact fun dir pattern ps h => expandPattern_go o dir pattern ps h
  · intro files h
    unfold findFiles at h
    cases hex : expandAll o cfg.Input.Dir cfg.Input.Exclude with
    | error e => rw [hex] at h; simp at h
    | ok ex =>
      rw [hex] at h
      cases hinc : expandAll o cfg.Input.Dir cfg.Input.Include with
      | error e => rw [hinc] at h; simp at h
      | ok inc =>
        rw [hinc] at h
        simp only [Except.ok.injEq] at h
        subst h
        intro f hf
        have hmem : f ∈ inc :=
          List.mem_of_mem_filter (List.mem_dedup.mp hf)
        exact expandAll_go o cfg.Input.Dir cfg.Input.Include inc hinc f hmem

/-- Witness for C10 at concrete oracles: the glob yields a match without the
`.go` suffix, which is filtered away, and the surviving file ends in
`.go`. -/
theorem c10_only_go_files_witness :
    goHasSuffix "./a.go" ".go" = true :=
  (c10_only_go_files
    ⟨fun p => if p = "**/*.go" then some ["a.go", "b.txt"] else some [],
     [("p/x.go", false)], fun _ => some "main"⟩ sampleConfig).2
    ["./a.go"] (by rfl) "./a.go" (by decide)

/-- No entry of `others` matches `x` as a name or alias. -/
def Unmatched (others : List TypePackageOutput) (x : String) : Prop :=
  ∀ e ∈ others, aliasMatches x e = false

/-- The effective identifier of an import: the alias when assigned, else the
name. -/
def eff (e : TypePackageOutput) : String := if e.Alias = "" then e.Name else e.Alias

theorem loopRel_unmatched {others l : List TypePackageOutput} {n a r : String}
    (h : LoopRel others l n a r) :
    (Unmatched others a ∨ (a = n ∧ ∀ e ∈ others, e ∈ l ∨ aliasMatches n e = false)) →
    Unmatched others r := by
  induction h with
  | nil =>
    rintro (ha | ⟨rfl, hcov⟩)
    · exact ha
    · intro e he
      rcases hcov e he with h | h
      · simp at h
      · exact h
  | skip hm _ ih =>
    rintro (ha | ⟨rfl, hcov⟩)
    · exact ih (Or.inl ha)
    · refine ih (Or.inr ⟨rfl, fun e he => ?_⟩)
      rcases hcov e he with hmem | hnm
      · rcases List.mem_cons.mp hmem with rfl | hmem
        · exact Or.inr hm
        · exact Or.inl hmem
      · exact Or.inr hnm
  | hit hm hperm hinner hrest ihinner ihrest =>
    intro _
    refine ihrest (Or.inl ?_)
    exact ihinner (Or.inr ⟨rfl, fun e he => Or.inl ((hperm.mem_iff).mpr he)⟩)

theorem loopRel_shape {others l : List TypePackageOutput} {n a r : String}
    (h : LoopRel others l n a r) : r = a ∨ ∃ s, r = "_" ++ s := by
  induction h with
  | nil => exact Or.inl rfl
  | skip _ _ ih => exact ih
  | hit _ _ _ _ ihinner ihrest =>
    rcases ihrest with rfl | hs
    · rcases ihinner with h' | ⟨s, hs⟩
      · exact Or.inr ⟨_, h'⟩
      · exact Or.inr ⟨s, hs⟩
    · exact Or.inr hs

theorem loopRel_top {others l : List TypePackageOutput} {n a r : String}
    (h : LoopRel others l n a r) :
    (∀ e ∈ others, e ∈ l ∨ aliasMatches n e = false) →
    (r = a ∧ Unmatched others n) ∨ (Unmatched others r ∧ ∃ s, r = "_" ++ s) := by
  induction h with
  | nil =>
    intro hcov
    refine Or.inl ⟨rfl, fun e he => ?_⟩
    rcases hcov e he with h | h
    · simp at h
    · exact h
  | skip hm _ ih =>
    intro hcov
    refine ih (fun e he => ?_)
    rcases hcov e he with hmem | hnm
    · rcases List.mem_cons.mp hmem with rfl | hmem
      · exact Or.inr hm
      · exact Or.inl hmem
    · exact Or.inr hnm
  | hit hm hperm hinner hrest ihinner ihrest =>
    intro _
    right
    have ha' : Unmatched _ _ :=
      loopRel_unmatched hinner (Or.inr ⟨rfl, fun e he => Or.inl ((hperm.mem_iff).mpr he)⟩)
    refine ⟨loopRel_unmatched hrest (Or.inl ha'), ?_⟩
    rcases loopRel_shape hrest with rfl | hs
    · rcases loopRel_shape hinner with h' | ⟨s, hs⟩
      · exact ⟨_, h'⟩
      · exact ⟨s, hs⟩
    · exact hs

theorem underscoreAppend_ne_empty (s : String) : ("_" ++ s) ≠ "" := by
  intro h
  have h2 : ('_' :: s.data) = ([] : List Char) := congrArg String.data h
  simp at h2

theorem aliasMatches_false_iff (x : String) (e : TypePackageOutput) :
    aliasMatches x e = false ↔ e.Name ≠ x ∧ e.Alias ≠ x := by
  simp [aliasMatches]

theorem eff_ne_of_unmatched {others : List TypePackageOutput} {x : String}
    (h : Unmatched others x) : ∀ e ∈ others, eff e ≠ x := by
  intro e he
  have := (aliasMatches_false_iff x e).mp (h e he)
  unfold eff
  split
  · exact this.1
  · exact this.2

/-- After `setRecursiveAlias` finishes on a freshly inserted import with an
empty initial alias, its effective identifier differs from every other
registered import's name and alias. -/
theorem topWalk_eff_ne {others : List TypePackageOutput} {tp : TypePackageOutput}
    {r : String} (htp : tp.Alias = "") (h : TopWalk others tp.Name tp.Alias r) :
    ∀ e ∈ others, eff e ≠ eff { tp with Alias := r } := by
  rcases h with ⟨l, hperm, hloop⟩
  rw [htp] at hloop
  have hcov : ∀ e ∈ others, e ∈ l ∨ aliasMatches tp.Name e = false :=
    fun e he => Or.inl ((hperm.mem_iff).mpr he)
  rcases loopRel_top hloop hcov with ⟨rfl, hun⟩ | ⟨hun, s, rfl⟩
  · intro e he
    have heff : eff { tp with Alias := "" } = tp.Name := by simp [eff]
    rw [heff]
    have := (aliasMatches_false_iff tp.Name e).mp (hun e he)
    unfold eff
    split
    · exact this.1
    · exact this.2
  · intro e he
    have heff : eff { tp with Alias := "_" ++ s } = "_" ++ s := by
      simp [eff, underscoreAppend_ne_empty s]
    rw [heff]
    exact eff_ne_of_unmatched hun e he

/-- The invariant of one package's import map: paths are pairwise distinct
(each path maps to exactly one entry) and effective identifiers are pairwise
distinct. -/
def ImportsOK (l : List TypePackageOutput) : Prop :=
  l.Pairwise (fun a b => a.Path ≠ b.Path) ∧ l.Pairwise (fun a b => eff a ≠ eff b)

theorem regImports_preserves {cur tps fin : List TypePackageOutput}
    (h : RegImports cur tps fin) :
    (∀ tp ∈ tps, tp.Alias = "") → ImportsOK cur → ImportsOK fin := by
  induction h with
  | nil => exact fun _ hok => hok
  | present _ _ ih =>
    exact fun halias hok => ih (fun tp htp => halias tp (List.mem_cons_of_mem _ htp)) hok
  | @absent cur tp rest fin r hpath hwalk _ ih =>
    intro halias hok
    have htp : tp.Alias = "" := halias tp (List.mem_cons_self tp rest)
    refine ih (fun q hq => halias q (List.mem_cons_of_mem _ hq)) ⟨?_, ?_⟩
    · rw [List.pairwise_append]
      refine ⟨hok.1, List.pairwise_singleton _ _, fun a ha b hb => ?_⟩
      have hb2 : b = { tp with Alias := r } := by simpa using hb
      subst hb2
      exact hpath a ha
    · rw [List.pairwise_append]
      refine ⟨hok.2, List.pairwise_singleton _ _, fun a ha b hb => ?_⟩
      have hb2 : b = { tp with Alias := r } := by simpa using hb
      subst hb2
      exact topWalk_eff_ne htp hwalk a ha

/-- Every package of the model satisfies the import invariant. -/
def ModelImportsOK (m : Model) : Prop :=
  ∀ p ∈ m.Packages, ImportsOK p.2.Imports

theorem addStruct_preserves {m : Model} {path name : String} {sm : StructModel}
    {m' : Model} (h : AddStructRel m path name sm m')
    (halias : ∀ tp ∈ gatherTypePackages sm, tp.Alias = "")
    (hok : ModelImportsOK m) : ModelImportsOK m' := by
  cases h with
  | fresh hnone hreg =>
    rename_i imps
    intro p hp
    rcases List.mem_append.mp hp with hp | hp
    · exact hok p hp
    · have hp2 : p = (path, ⟨name, path, imps, [sm]⟩) := by simpa using hp
      subst hp2
      exact regImports_preserves hreg halias ⟨List.Pairwise.nil, List.Pairwise.nil⟩
  | existing hsome hreg =>
    rename_i pkg imps
    intro p hp
    unfold pkgReplace at hp
    rcases List.mem_map.mp hp with ⟨q, hq, hpq⟩
    have hpkg : ImportsOK pkg.Imports := by
      unfold lookupPackage at hsome
      cases hf : m.Packages.find? (fun p => p.1 == path) with
      | none => rw [hf] at hsome; simp at hsome
      | some pr =>
        rw [hf] at hsome
        simp at hsome
        have hmem := List.mem_of_find?_eq_some hf
        rw [← hsome]
        exact hok pr hmem
    by_cases hqp : (q.1 == path) = true
    · rw [if_pos hqp] at hpq
      subst hpq
      exact regImports_preserves hreg halias hpkg
    · rw [if_neg hqp] at hpq
      subst hpq
      exact hok q hq

theorem reachRel_preserves {m : Model} {calls : List (String × String × StructModel)}
    {m' : Model} (h : ReachRel m calls m') :
    (∀ c ∈ calls, ∀ tp ∈ gatherTypePackages c.2.2, tp.Alias = "") →
    ModelImportsOK m → ModelImportsOK m' := by
  induction h with
  | nil => exact fun _ hok => hok
  | @cons m c cs m₁ m' hadd _ ih =>
    intro halias hok
    exact ih (fun c' hc' => halias c' (List.mem_cons_of_mem _ hc'))
      (addStruct_preserves hadd (halias c (List.mem_cons_self c cs)) hok)

/-- C4: after every sequence of `AddStruct` calls on a fresh model whose
registered getter value-returns carry empty initial aliases, every package
has an import map with pairwise distinct paths (each path maps to exactly one
entry) and pairwise distinct effective identifiers (alias if set, else
name). -/
theorem c4_import_invariant (calls : List (String × String × StructModel)) (m' : Model)
    (halias : ∀ c ∈ calls, ∀ tp ∈ gatherTypePackages c.2.2, tp.Alias = "")
    (h : ReachRel NewModel calls m') :
    ∀ p ∈ m'.Packages,
      p.2.Imports.Pairwise (fun a b => a.Path ≠ b.Path) ∧
      p.2.Imports.Pairwise (fun a b => eff a ≠ eff b) :=
  reachRel_preserves h halias (fun p hp => by simp [NewModel] at hp)

/-- A type package, struct model and call list used by the C4 witness. -/
def sampleTP1 : TypePackageOutput := ⟨"strings", "strings", ""⟩

def sampleValueStruct : StructModel :=
  ⟨"User", "user.go", 3, [], [],
   [⟨"GetName", [⟨none, none, none, some ⟨"Name", "string", sampleTP1⟩⟩]⟩]⟩

/-- Witness for C4 after one concrete `AddStruct` call registering a single
package import. -/
theorem c4_import_invariant_witness :
    ([sampleTP1].Pairwise (fun a b => a.Path ≠ b.Path)) ∧
    ([sampleTP1].Pairwise (fun a b => eff a ≠ eff b)) :=
  c4_import_invariant [("p", "main", sampleValueStruct)] _ (by decide)
    (ReachRel.cons
      (AddStructRel.fresh rfl
        (RegImports.absent (by simp) ⟨[], List.Perm.refl [], LoopRel.nil⟩ RegImports.nil))
      ReachRel.nil)
    ("p", ⟨"main", "p", [sampleTP1], [sampleValueStruct]⟩) (by decide)

theorem loopRel_const_of_no_match {others : List TypePackageOutput} {n : String} :
    ∀ {l : List TypePackageOutput} {a r : String}, LoopRel others l n a r →
      (∀ e ∈ l, aliasMatches n e = false) → r = a := by
  intro l
  induction l with
  | nil => intro a r h _; cases h; rfl
  | cons e rest ih =>
    intro a r h hnm
    cases h with
    | skip _ htail => exact ih htail (fun x hx => hnm x (List.mem_cons_of_mem _ hx))
    | hit hm _ _ _ => exact absurd (hnm e (List.mem_cons_self e rest)) (by simp [hm])

theorem loopRel_result_of_inner_const {others : List TypePackageOutput} {n v : String}
    (hinner : ∀ (l' : List TypePackageOutput) (a' : String), l'.Perm others →
      LoopRel others l' ("_" ++ n) ("_" ++ n) a' → a' = v) :
    ∀ (l : List TypePackageOutput) (a r : String), LoopRel others l n a r →
      ((∀ e ∈ l, aliasMatches n e = false) ∧ r = a) ∨
      ((∃ e ∈ l, aliasMatches n e = true) ∧ r = v) := by
  intro l
  induction l with
  | nil =>
    intro a r h
    cases h
    exact Or.inl ⟨by simp, rfl⟩
  | cons e rest ih =>
    intro a r h
    cases h with
    | skip hm htail =>
      rcases ih _ _ htail with ⟨hnm, rfl⟩ | ⟨hex, rfl⟩
      · refine Or.inl ⟨fun x hx => ?_, rfl⟩
        rcases List.mem_cons.mp hx with rfl | hx
        · exact hm
        · exact hnm x hx
      · rcases hex with ⟨x, hx, hmx⟩
        exact Or.inr ⟨⟨x, List.mem_cons_of_mem e hx, hmx⟩, rfl⟩
    | hit hm hperm hin htail =>
      have ha' := hinner _ _ hperm hin
      subst ha'
      rcases ih _ _ htail with ⟨_, rfl⟩ | ⟨_, rfl⟩
      · exact Or.inr ⟨⟨e, List.mem_cons_self e rest, hm⟩, rfl⟩
      · exact Or.inr ⟨⟨e, List.mem_cons_self e rest, hm⟩, rfl⟩

/-- The three colliding imports of C3: distinct paths, all with true package
name `strings` and no initial alias. -/
def stringsTP1 : TypePackageOutput := ⟨"a/strings", "strings", ""⟩

def stringsTP2 : TypePackageOutput := ⟨"b/strings", "strings", ""⟩

def stringsTP3 : TypePackageOutput := ⟨"c/strings", "strings", ""⟩

def stringsTP2x : TypePackageOutput := ⟨"b/strings", "strings", "_strings"⟩

def stringsTP3x : TypePackageOutput := ⟨"c/strings", "strings", "__strings"⟩

theorem topWalk_nil {n a r : String} (h : TopWalk [] n a r) : r = a := by
  rcases h with ⟨l, hperm, hloop⟩
  have hl : l = [] := List.Perm.eq_nil hperm
  subst hl
  cases hloop
  rfl

theorem topWalk_single {r : String} (h : TopWalk [stringsTP1] "strings" "" r) :
    r = "_strings" := by
  rcases h with ⟨l, hperm, hloop⟩
  have hin : ∀ (l' : List TypePackageOutput) (a' : String), l'.Perm [stringsTP1] →
      LoopRel [stringsTP1] l' ("_" ++ "strings") ("_" ++ "strings") a' →
      a' = "_" ++ "strings" := by
    intro l' a' hp hl'
    refine loopRel_const_of_no_match hl' (fun e he => ?_)
    have he2 : e = stringsTP1 := by simpa using hp.subset he
    subst he2
    decide
  rcases loopRel_result_of_inner_const hin _ _ _ hloop with ⟨hnm, rfl⟩ | ⟨_, hr⟩
  · exact absurd (hnm stringsTP1 ((hperm.mem_iff).mpr (by simp))) (by decide)
  · exact hr

theorem topWalk_pair {r : String}
    (h : TopWalk [stringsTP1, stringsTP2x] "strings" "" r) : r = "__strings" := by
  rcases h with ⟨l, hperm, hloop⟩
  have hin2 : ∀ (l' : List TypePackageOutput) (a' : String),
      l'.Perm [stringsTP1, stringsTP2x] →
      LoopRel [stringsTP1, stringsTP2x] l'
        ("_" ++ ("_" ++ "strings")) ("_" ++ ("_" ++ "strings")) a' →
      a' = "_" ++ ("_" ++ "strings") := by
    intro l' a' hp hl'
    refine loopRel_const_of_no_match hl' (fun e he => ?_)
    have he2 := hp.subset he
    simp at he2
    rcases he2 with rfl | rfl
    · decide
    · decide
  have hin1 : ∀ (l' : List TypePackageOutput) (a' : String),
      l'.Perm [stringsTP1, stringsTP2x] →
      LoopRel [stringsTP1, stringsTP2x] l' ("_" ++ "strings") ("_" ++ "strings") a' →
      a' = "__strings" := by
    intro l' a' hp hl'
    rcases loopRel_result_of_inner_const hin2 _ _ _ hl' with ⟨hnm, rfl⟩ | ⟨_, hr⟩
    · exact absurd (hnm stringsTP2x ((hp.mem_iff).mpr (by simp))) (by decide)
    · exact hr
  rcases loopRel_result_of_inner_const hin1 _ _ _ hloop with ⟨hnm, rfl⟩ | ⟨_, hr⟩
  · exact absurd (hnm stringsTP1 ((hperm.mem_iff).mpr (by simp))) (by decide)
  · exact hr

theorem regStrings_det {fin : List TypePackageOutput}
    (h : RegImports [] [stringsTP1, stringsTP2, stringsTP3] fin) :
    fin = [stringsTP1, stringsTP2x, stringsTP3x] := by
  cases h with
  | present hex _ => simp at hex
  | absent hne hwalk hrest =>
    have hr1 := topWalk_nil hwalk
    subst hr1
    cases hrest with
    | present hex _ =>
      rcases hex with ⟨e, he, hp⟩
      simp at he
      subst he
      exact absurd hp (by decide)
    | absent hne2 hwalk2 hrest2 =>
      have hr2 := topWalk_single
        (show TopWalk [stringsTP1] "strings" "" _ from hwalk2)
      subst hr2
      cases hrest2 with
      | present hex _ =>
        rcases hex with ⟨e, he, hp⟩
        simp at he
        rcases he with rfl | rfl
        · exact absurd hp (by decide)
        · exact absurd hp (by decide)
      | absent hne3 hwalk3 hrest3 =>
        have hr3 := topWalk_pair
          (show TopWalk [stringsTP1, stringsTP2x] "strings" "" _ from hwalk3)
        subst hr3
        cases hrest3
        decide

/-- A value-returning getter return for the C3 struct. -/
def mkValueReturn (tp : TypePackageOutput) : ReturnOutput :=
  ⟨none, none, none, some ⟨"Name", "string", tp⟩⟩

/-- The struct whose getter requests three values typed in the three
colliding packages, in order. -/
def threeStringsStruct : StructModel :=
  ⟨"User", "user.go", 3, [], [],
   [⟨"GetAll", [mkValueReturn stringsTP1, mkValueReturn stringsTP2,
                mkValueReturn stringsTP3]⟩]⟩

/-- C3: `AddStruct` on a fresh model with three imports of pairwise distinct
paths, all truly named `strings` and initially unaliased, leaves the first
alias empty and assigns `_strings` and `__strings` to the second and third in
request order — whatever enumeration orders the recursive renaming walk uses
over the `Imports` map. -/
theorem c3_alias_collision (m' : Model)
    (h : AddStructRel NewModel "pkg/path" "mypkg" threeStringsStruct m') :
    m'.Packages = [("pkg/path",
      ⟨"mypkg", "pkg/path", [stringsTP1, stringsTP2x, stringsTP3x],
       [threeStringsStruct]⟩)] := by
  cases h with
  | fresh hnone hreg =>
    rename_i imps
    have hgather : gatherTypePackages threeStringsStruct =
        [stringsTP1, stringsTP2, stringsTP3] := by decide
    rw [hgather] at hreg
    have himps := regStrings_det hreg
    subst himps
    rfl
  | existing hsome _ =>
    rw [show lookupPackage NewModel "pkg/path" = none from rfl] at hsome
    cases hsome

/-- Witness for C3: a concrete derivation of the registration, walking the
imports in insertion order at every level. -/
theorem c3_alias_collision_witness :
    (Model.mk [("pkg/path",
      ⟨"mypkg", "pkg/path", [stringsTP1, stringsTP2x, stringsTP3x],
       [threeStringsStruct]⟩)] 0 1 1 0 []).Packages =
    [("pkg/path",
      ⟨"mypkg", "pkg/path", [stringsTP1, stringsTP2x, stringsTP3x],
       [threeStringsStruct]⟩)] := by
  have hreg3 : RegImports [stringsTP1, stringsTP2x] [stringsTP3]
      ([stringsTP1, stringsTP2x] ++ [{ stringsTP3 with Alias := "__strings" }]) := by
    have hInner : LoopRel [stringsTP1, stringsTP2x] [stringsTP1, stringsTP2x]
        ("_" ++ stringsTP3.Name) ("_" ++ stringsTP3.Name) "__strings" := by
      refine LoopRel.skip (by decide) ?_
      refine LoopRel.hit (by decide) (List.Perm.refl _) ?_ LoopRel.nil
      exact LoopRel.skip (by decide) (LoopRel.skip (by decide) LoopRel.nil)
    have hRest : LoopRel [stringsTP1, stringsTP2x] [stringsTP2x]
        stringsTP3.Name "__strings" "__strings" :=
      LoopRel.hit (by decide) (List.Perm.refl _) hInner LoopRel.nil
    have hw : TopWalk [stringsTP1, stringsTP2x] stringsTP3.Name stringsTP3.Alias
        "__strings" :=
      ⟨[stringsTP1, stringsTP2x], List.Perm.refl _,
       LoopRel.hit (by decide) (List.Perm.refl _) hInner hRest⟩
    have habs : ∀ e ∈ [stringsTP1, stringsTP2x], e.Path ≠ stringsTP3.Path := by decide
    exact RegImports.absent habs hw RegImports.nil
  have hreg2 : RegImports [stringsTP1] [stringsTP2, stringsTP3]
      ([stringsTP1, stringsTP2x] ++ [{ stringsTP3 with Alias := "__strings" }]) := by
    have hw : TopWalk [stringsTP1] stringsTP2.Name stringsTP2.Alias "_strings" := by
      refine ⟨[stringsTP1], List.Perm.refl _, ?_⟩
      refine LoopRel.hit (by decide) (List.Perm.refl _) ?_ LoopRel.nil
      exact LoopRel.skip (by decide) LoopRel.nil
    have habs : ∀ e ∈ [stringsTP1], e.Path ≠ stringsTP2.Path := by decide
    exact RegImports.absent habs hw hreg3
  have hreg1 : RegImports [] [stringsTP1, stringsTP2, stringsTP3]
      ([stringsTP1, stringsTP2x] ++ [{ stringsTP3 with Alias := "__strings" }]) := by
    have hw : TopWalk [] stringsTP1.Name stringsTP1.Alias "" :=
      ⟨[], List.Perm.refl _, LoopRel.nil⟩
    have habs : ∀ e ∈ ([] : List TypePackageOutput), e.Path ≠ stringsTP1.Path := by simp
    exact RegImports.absent habs hw hreg2
  have hga : RegImports [] (gatherTypePackages threeStringsStruct)
      [stringsTP1, stringsTP2x, stringsTP3x] := by
    rw [show gatherTypePackages threeStringsStruct =
      [stringsTP1, stringsTP2, stringsTP3] from by decide]
    exact hreg1
  exact c3_alias_collision _ (AddStructRel.fresh rfl hga)

/-- Model of `unicode.IsDigit` on ASCII (used only to state the amended
C8). -/
def goIsDigit (c : Char) : Bool := decide ('0' ≤ c) && decide (c ≤ '9')

/-- The claim's literal notion of a correctly pascal-cased word: an
uppercase letter followed by non-uppercase characters. -/
def claimPascalWord (w : List Char) : Bool :=
  match w with
  | [] => false
  | c :: cs => goIsUpper c && cs.all (fun x => !goIsUpper x)

/-- The amended notion: an uppercase ASCII letter followed by lowercase ASCII
letters or digits. -/
def pascalWordOK (w : List Char) : Bool :=
  match w with
  | [] => false
  | c :: cs => goIsUpper c && cs.all (fun x => goIsLower x || goIsDigit x)

/-- Every word except the last has at least two characters. -/
def nonFinalLong : List (List Char) → Bool
  | [] => true
  | [_] => true
  | w :: rest => decide (2 ≤ w.length) && nonFinalLong rest

theorem upper_key_not_lower_digit : ∀ p ∈ upperLowerTable,
    goIsLower p.1 = false ∧ goIsDigit p.1 = false := by decide

theorem table_roundtrip : ∀ p ∈ upperLowerTable, asciiToUpper p.2 = p.1 := by decide

theorem table_key_props : ∀ p ∈ upperLowerTable,
    isSeparator p.1 = false ∧ goIsUpper p.1 = true := by decide

theorem table_snd_props : ∀ p ∈ upperLowerTable,
    goIsUpper p.2 = false ∧ isSeparator p.2 = false := by decide

theorem goIsUpper_mem (c : Char) (h : goIsUpper c = true) :
    ∃ p ∈ upperLowerTable, p.1 = c ∧ asciiToLower c = p.2 := by
  unfold goIsUpper lowerOfUpper at h
  cases hf : upperLowerTable.find? (fun p => p.1 == c) with
  | none => rw [hf] at h; simp at h
  | some p =>
    have hmem := List.mem_of_find?_eq_some hf
    have hpred := List.find?_some hf
    refine ⟨p, hmem, by simpa using hpred, ?_⟩
    unfold asciiToLower lowerOfUpper
    rw [hf]
    rfl

theorem goIsUpper_not_sep (c : Char) (h : goIsUpper c = true) :
    isSeparator c = false := by
  rcases goIsUpper_mem c h with ⟨p, hmem, hpc, _⟩
  rw [← hpc]
  exact (table_key_props p hmem).1

theorem asciiToUpper_toLower (c : Char) (h : goIsUpper c = true) :
    asciiToUpper (asciiToLower c) = c := by
  rcases goIsUpper_mem c h with ⟨p, hmem, hpc, hlow⟩
  rw [hlow, table_roundtrip p hmem, hpc]

theorem not_key_find (x : Char) (h : goIsLower x = true ∨ goIsDigit x = true) :
    upperLowerTable.find? (fun p => p.1 == x) = none := by
  rw [List.find?_eq_none]
  intro p hp hbx
  have hx : p.1 = x := by simpa using hbx
  have hf := upper_key_not_lower_digit p hp
  rw [hx] at hf
  rcases h with h | h
  · rw [h] at hf; exact absurd hf.1 (by simp)
  · rw [h] at hf; exact absurd hf.2 (by simp)

theorem goIsDigit_not_sep (x : Char) (h : goIsDigit x = true) :
    isSeparator x = false := by
  unfold goIsDigit at h
  simp only [Bool.and_eq_true, decide_eq_true_eq] at h
  unfold isSeparator
  have h1 : ¬x = '_' := fun he => by subst he; exact absurd h (by decide)
  have h2 : ¬x = '-' := fun he => by subst he; exact absurd h (by decide)
  have h3 : ¬x = ' ' := fun he => by subst he; exact absurd h (by decide)
  have h4 : ¬x = '.' := fun he => by subst he; exact absurd h (by decide)
  have h5 : ¬x = '/' := fun he => by subst he; exact absurd h (by decide)
  simp [h1, h2, h3, h4, h5]

/-- A non-leading character of an amended pascal word is not uppercase, not a
separator, and fixed by lowering. -/
theorem pascal_rest_props (x : Char) (h : goIsLower x = true ∨ goIsDigit x = true) :
    goIsUpper x = false ∧ isSeparator x = false ∧ asciiToLower x = x := by
  have hnone := not_key_find x h
  refine ⟨?_, ?_, ?_⟩
  · unfold goIsUpper lowerOfUpper
    rw [hnone]
    rfl
  · rcases h with h | h
    · unfold goIsLower upperOfLower at h
      cases hf : upperLowerTable.find? (fun p => p.2 == x) with
      | none => rw [hf] at h; simp at h
      | some p =>
        have hmem := List.mem_of_find?_eq_some hf
        have hpred := List.find?_some hf
        have hx : p.2 = x := by simpa using hpred
        rw [← hx]
        exact (table_snd_props p hmem).2
    · exact goIsDigit_not_sep x h
  · unfold asciiToLower lowerOfUpper
    rw [hnone]
    rfl

theorem titleWord_pascal (w : List Char) (h : pascalWordOK w = true) :
    titleWord w = w := by
  rcases w with _ | ⟨c, cs⟩
  · simp [pascalWordOK] at h
  · unfold pascalWordOK at h
    simp only [Bool.and_eq_true, List.all_eq_true] at h
    unfold titleWord
    simp only [List.map_cons, titleNoLower]
    congr 1
    · exact asciiToUpper_toLower c h.1
    · have : ∀ x ∈ cs, asciiToLower x = x := by
        intro x hx
        have hp := h.2 x hx
        simp only [Bool.or_eq_true] at hp
        exact (pascal_rest_props x hp).2.2
      calc cs.map asciiToLower = cs.map id := List.map_congr_left this
        _ = cs := List.map_id cs

theorem arrayToPascalCaseL_pascal (ws : List (List Char))
    (hall : ∀ w ∈ ws, pascalWordOK w = true) :
    arrayToPascalCaseL ws = ws.flatten := by
  induction ws with
  | nil => rfl
  | cons w t ih =>
    have hw := hall w (List.mem_cons_self w t)
    have hwne : (!w.isEmpty) = true := by
      rcases w with _ | _
      · simp [pascalWordOK] at hw
      · rfl
    unfold arrayToPascalCaseL
    rw [List.filter_cons, if_pos hwne]
    simp only [List.map_cons, List.flatten_cons]
    rw [titleWord_pascal w hw]
    congr 1
    exact ih (fun x hx => hall x (List.mem_cons_of_mem w hx))

theorem splitGo_cons_plain (r : Char) (l cur : List Char) (p : Bool)
    (h1 : isSeparator r = false) (h2 : goIsUpper r = false) :
    splitGo (r :: l) p cur = splitGo l false (cur ++ [r]) := by
  simp [splitGo, h1, h2]

theorem splitGo_cons_upper (r : Char) (l cur : List Char) (p : Bool)
    (hsep : isSeparator r = false) (hu : goIsUpper r = true) :
    splitGo (r :: l) p cur =
      if (!cur.isEmpty && !p) = true then cur :: splitGo l true [r]
      else splitGo l true (cur ++ [r]) := by
  simp [splitGo, hsep, hu]

theorem splitGo_extend (tail : List Char) :
    ∀ (rest : List Char), rest ≠ [] →
      (∀ x ∈ rest, goIsUpper x = false ∧ isSeparator x = false) →
      ∀ (cur : List Char) (p : Bool),
        splitGo (rest ++ tail) p cur = splitGo tail false (cur ++ rest) := by
  intro rest
  induction rest with
  | nil => intro h; exact absurd rfl h
  | cons r rs ih =>
    intro _ hprops cur p
    have hr := hprops r (List.mem_cons_self r rs)
    rw [List.cons_append, splitGo_cons_plain r (rs ++ tail) cur p hr.2 hr.1]
    rcases rs with _ | ⟨y, ys⟩
    · simp
    · rw [ih (by simp) (fun x hx => hprops x (List.mem_cons_of_mem r hx)) (cur ++ [r]) false]
      rw [List.append_assoc]
      rfl

theorem splitGo_pascal_chain :
    ∀ (ws : List (List Char)), (∀ w ∈ ws, pascalWordOK w = true) →
      nonFinalLong ws = true →
      ∀ (cur : List Char), cur ≠ [] →
      splitGo ws.flatten false cur = cur :: ws := by
  intro ws
  induction ws with
  | nil =>
    intro _ _ cur hcur
    simp [splitGo, hcur]
  | cons w ws ih =>
    intro hall hlong cur hcur
    obtain ⟨c, cs, rfl⟩ : ∃ c cs, w = c :: cs := by
      rcases w with _ | ⟨c, cs⟩
      · exact absurd (hall [] (List.mem_cons_self [] ws)) (by decide)
      · exact ⟨c, cs, rfl⟩
    have hw' := hall (c :: cs) (List.mem_cons_self _ ws)
    unfold pascalWordOK at hw'
    simp only [Bool.and_eq_true, List.all_eq_true] at hw'
    have hcu : goIsUpper c = true := hw'.1
    have hcsep : isSeparator c = false := goIsUpper_not_sep c hcu
    have hcs : ∀ x ∈ cs, goIsUpper x = false ∧ isSeparator x = false := by
      intro x hx
      have hp := hw'.2 x hx
      simp only [Bool.or_eq_true] at hp
      have := pascal_rest_props x hp
      exact ⟨this.1, this.2.1⟩
    rw [List.flatten_cons, List.cons_append, splitGo_cons_upper c _ cur false hcsep hcu]
    rw [if_pos (by simp [hcur])]
    congr 1
    cases cs with
    | nil =>
      cases ws with
      | nil => simp [splitGo]
      | cons w2 ws2 =>
        exfalso
        simp [nonFinalLong] at hlong
    | cons x xs =>
      rw [splitGo_extend ws.flatten (x :: xs) (by simp)
        (fun y hy => hcs y hy) [c] true]
      cases ws with
      | nil => simp [splitGo]
      | cons w2 ws2 =>
        have hlong2 : nonFinalLong (w2 :: ws2) = true := by
          simp only [nonFinalLong, Bool.and_eq_true] at hlong
          exact hlong.2
        exact ih (fun y hy => hall y (List.mem_cons_of_mem _ hy)) hlong2
          (c :: x :: xs) (by simp)

theorem splitIntoWordsL_pascal_chain (ws : List (List Char))
    (hne : ws ≠ []) (hall : ∀ w ∈ ws, pascalWordOK w = true)
    (hlong : nonFinalLong ws = true) :
    splitIntoWordsL ws.flatten = ws := by
  rcases ws with _ | ⟨w, ws⟩
  · exact absurd rfl hne
  obtain ⟨c, cs, rfl⟩ : ∃ c cs, w = c :: cs := by
    rcases w with _ | ⟨c, cs⟩
    · exact absurd (hall [] (List.mem_cons_self [] ws)) (by decide)
    · exact ⟨c, cs, rfl⟩
  have hw' := hall (c :: cs) (List.mem_cons_self _ ws)
  unfold pascalWordOK at hw'
  simp only [Bool.and_eq_true, List.all_eq_true] at hw'
  have hcu : goIsUpper c = true := hw'.1
  have hcsep : isSeparator c = false := goIsUpper_not_sep c hcu
  have hcs : ∀ x ∈ cs, goIsUpper x = false ∧ isSeparator x = false := by
    intro x hx
    have hp := hw'.2 x hx
    simp only [Bool.or_eq_true] at hp
    have := pascal_rest_props x hp
    exact ⟨this.1, this.2.1⟩
  unfold splitIntoWordsL
  rw [List.flatten_cons, List.cons_append, splitGo_cons_upper c _ [] false hcsep hcu]
  rw [if_neg (by simp)]
  simp only [List.nil_append]
  cases cs with
  | nil =>
    cases ws with
    | nil => simp [splitGo]
    | cons w2 ws2 =>
      exfalso
      simp [nonFinalLong] at hlong
  | cons x xs =>
    rw [splitGo_extend ws.flatten (x :: xs) (by simp) (fun y hy => hcs y hy) [c] true]
    cases ws with
    | nil => simp [splitGo]
    | cons w2 ws2 =>
      have hlong2 : nonFinalLong (w2 :: ws2) = true := by
        simp only [nonFinalLong, Bool.and_eq_true] at hlong
        exact hlong.2
      exact splitGo_pascal_chain (w2 :: ws2)
        (fun y hy => hall y (List.mem_cons_of_mem _ hy)) hlong2 (c :: x :: xs) (by simp)

theorem buildName_pascal_single (mid : String) (hmid : ¬mid = "") :
    buildName "" mid "" "" .pascal = toPascalCase mid := by
  unfold buildName
  have h1 : (["", mid, "", ""].filter (fun p => p ≠ "")) = [mid] := by
    simp [List.filter, hmid]
  rw [h1]
  show toPascalCase (String.intercalate " " [mid]) = toPascalCase mid
  rw [show String.intercalate " " [mid] = mid from by
    simp [String.intercalate, String.intercalate.go]]

/-- C8 counterexample: by the claim's own definition `"A"` and `"B"` are each
a correctly pascal-cased word (an uppercase letter followed by zero
non-uppercase characters), their concatenation is `"AB"`, yet the pascal
format changes it to `"Ab"`. -/
theorem c8_counterexample :
    claimPascalWord ['A'] = true ∧ claimPascalWord ['B'] = true ∧
    String.mk (List.flatten [['A'], ['B']]) = "AB" ∧
    toPascalCase "AB" = "Ab" ∧ ¬toPascalCase "AB" = "AB" := by decide

/-- C8 (amended): the pascal name format is a no-op on every nonempty
concatenation of correctly pascal-cased ASCII words — each an uppercase
letter followed by lowercase letters or digits — provided every word except
the last has at least two characters (a single-letter word followed by
another word merges with it, as the counterexample shows); `buildName` with
the pascal format is likewise a no-op on such a name. -/
theorem c8_pascal_idempotent (ws : List (List Char))
    (hne : ws ≠ []) (hall : ∀ w ∈ ws, pascalWordOK w = true)
    (hlong : nonFinalLong ws = true) :
    toPascalCase (String.mk ws.flatten) = String.mk ws.flatten ∧
    buildName "" (String.mk ws.flatten) "" "" .pascal = String.mk ws.flatten := by
  have hsplit := splitIntoWordsL_pascal_chain ws hne hall hlong
  have harr := arrayToPascalCaseL_pascal ws hall
  have hflat : ws.flatten.isEmpty = false := by
    rcases ws with _ | ⟨w, t⟩
    · exact absurd rfl hne
    · rcases w with _ | ⟨c, cs⟩
      · exact absurd (hall [] (List.mem_cons_self [] t)) (by decide)
      · simp
  have hmain : toPascalCase (String.mk ws.flatten) = String.mk ws.flatten := by
    unfold toPascalCase
    rw [show (String.mk ws.flatten).data = ws.flatten from rfl]
    unfold toPascalCaseL
    rw [if_neg (by simp [hflat])]
    rw [show splitGo ws.flatten false [] = splitIntoWordsL ws.flatten from rfl]
    rw [hsplit, harr]
  refine ⟨hmain, ?_⟩
  have hmid : ¬(String.mk ws.flatten) = "" := by
    intro h
    have h2 := congrArg String.data h
    simp only at h2
    rw [h2] at hflat
    simp at hflat
  rw [buildName_pascal_single _ hmid, hmain]

/-- Witness for the amended C8 at the concrete name `FooBar`. -/
theorem c8_pascal_idempotent_witness :
    toPascalCase "FooBar" = "FooBar" ∧
    buildName "" "FooBar" "" "" .pascal = "FooBar" :=
  c8_pascal_idempotent [['F', 'o', 'o'], ['B', 'a', 'r']] (by decide) (by decide)
    (by decide)

/-- Witness for C6 at a concrete model and parse error. -/
theorem c6_parse_failure_recoverable_witness :
    (addError { NewModel with FilesScanned := 1 } "bad.go" 7
        "failed to parse file: expected declaration", (none : Option String)) =
      ({ NewModel with
          FilesScanned := 1,
          Errors := [⟨"bad.go", 7, "failed to parse file: expected declaration"⟩] },
       none) :=
  (c6_parse_failure_recoverable (fun _ _ => none) sampleConfig NewModel "bad.go" "."
    ⟨7, "expected declaration"⟩ _ ScanFileRel.parseError).1

end Constago
